import Mathlib

/-!
Verification model of the SEO crawler (`crawler.py`): URL normalization
(`normalize_url`, built on Python's `urllib.parse.urlparse`/`urlunparse`),
robots checking (`check_robots`), the BFS crawl scheduler of `scrape_seo`,
and the summary/issue aggregation (`build_summary`, `build_issues`).
Network effects (HTTP fetching, robots.txt retrieval) are modelled as
oracle functions passed explicitly; everything else is translated directly
from the source.
-/

namespace Crawler

/-! ### URL layer: model of the `urllib.parse` functions used by the code

`urlparse`/`urlunparse` are modelled on `List Char` following CPython 3.11's
`urllib.parse` (`urlsplit`, `_splitnetloc`, `_splitparams`, `urlunsplit`).
The model returns `none` where CPython raises `ValueError` (mismatched
brackets in the netloc) and, conservatively, on any bracketed or non-ASCII
netloc (CPython validates these further); all URLs appearing in the claims
have plain ASCII bracket-free netlocs, and theorems only quantify over
inputs the model parses. -/

/-- The bytes CPython's `urlsplit` removes from the URL (`\t`, `\r`, `\n`). -/
def unsafeByte (c : Char) : Bool :=
  c = '\t' || c = '\r' || c = '\n'

/-- `urlsplit` first lstrips C0 control chars and spaces (code points ≤ 0x20)
and removes tab/CR/LF everywhere. -/
def sanitize (l : List Char) : List Char :=
  (l.dropWhile fun c => c.toNat ≤ 32).filter fun c => !unsafeByte c

/-- Membership in CPython's `scheme_chars` (ASCII alphanumerics and `+-.`). -/
def schemeChar (c : Char) : Bool :=
  c.isAlpha || c.isDigit || c = '+' || c = '-' || c = '.'

/-- A netloc delimiter per `_splitnetloc`: `/`, `?` or `#`. -/
def netlocDelim (c : Char) : Bool :=
  c = '/' || c = '?' || c = '#'

/-- Scheme detection of `urlsplit`: take the part before the first `:`
when it is non-empty, starts with an ASCII letter and consists of scheme
characters; the scheme is lower-cased. Otherwise the URL is unchanged. -/
def splitScheme (url : List Char) : List Char × List Char :=
  match url.dropWhile (· ≠ ':') with
  | [] => ([], url)
  | _ :: rest =>
    if url.takeWhile (· ≠ ':') ≠ [] ∧
        ((url.takeWhile (· ≠ ':')).headD '0').isAlpha = true ∧
        (url.takeWhile (· ≠ ':')).all schemeChar = true then
      ((url.takeWhile (· ≠ ':')).map Char.toLower, rest)
    else ([], url)

/-- `_splitnetloc`: when the remainder starts with `//`, the netloc extends
to the first `/`, `?` or `#`. -/
def splitNetloc (url : List Char) : List Char × List Char :=
  match url with
  | '/' :: '/' :: rest =>
    (rest.takeWhile (fun c => !netlocDelim c), rest.dropWhile (fun c => !netlocDelim c))
  | _ => ([], url)

/-- Split a list at the first occurrence of `c` (which is dropped);
identity-with-empty-tail when `c` does not occur. -/
def splitAtFirst (c : Char) (l : List Char) : List Char × List Char :=
  if c ∈ l then (l.takeWhile (· ≠ c), (l.dropWhile (· ≠ c)).tail) else (l, [])

/-- Result of `urlsplit` / `urlparse` (the six `ParseResult` fields). -/
structure URLParts where
  scheme : List Char
  netloc : List Char
  path : List Char
  params : List Char
  query : List Char
  fragment : List Char
deriving DecidableEq, Repr

/-- CPython's `urlsplit` (with `allow_fragments=True`): sanitize, split off
scheme, netloc, fragment and query. `none` models the `ValueError` branch
(and the model's conservative rejection of bracketed / non-ASCII netlocs). -/
def urlsplitL (url : List Char) : Option URLParts :=
  if '[' ∈ (splitNetloc (splitScheme (sanitize url)).2).1 ∨
      ']' ∈ (splitNetloc (splitScheme (sanitize url)).2).1 then none
  else if ¬ ((splitNetloc (splitScheme (sanitize url)).2).1.all
      (fun c => c.toNat ≤ 127) = true) then none
  else
    some ⟨(splitScheme (sanitize url)).1,
      (splitNetloc (splitScheme (sanitize url)).2).1,
      (splitAtFirst '?'
        (splitAtFirst '#' (splitNetloc (splitScheme (sanitize url)).2).2).1).1,
      [],
      (splitAtFirst '?'
        (splitAtFirst '#' (splitNetloc (splitScheme (sanitize url)).2).2).1).2,
      (splitAtFirst '#' (splitNetloc (splitScheme (sanitize url)).2).2).2⟩

/-- CPython's `uses_params` table (3.11). -/
def uses_params : List (List Char) :=
  ["", "ftp", "hdl", "prospero", "http", "imap", "https", "shttp", "rtsp",
   "rtsps", "rtspu", "sip", "sips", "mms", "sftp", "tel"].map String.data

/-- CPython's `uses_netloc` table (3.11). -/
def uses_netloc : List (List Char) :=
  ["", "ftp", "http", "gopher", "nntp", "telnet", "imap", "wais", "file",
   "mms", "https", "shttp", "snews", "prospero", "rtsp", "rtsps", "rtspu",
   "rsync", "svn", "svn+ssh", "sftp", "nfs", "git", "git+ssh", "ws",
   "wss"].map String.data

/-- `_splitparams`: parameters are split off the last path segment, at the
first `;` at or after the last `/` (or the first `;` overall when the path
has no `/`). -/
def splitparams (p : List Char) : List Char × List Char :=
  if '/' ∈ p then
    let last := (p.reverse.takeWhile (· ≠ '/')).reverse
    if ';' ∈ last then
      let sp := splitAtFirst ';' last
      (p.take (p.length - last.length) ++ sp.1, sp.2)
    else (p, [])
  else splitAtFirst ';' p

/-- CPython's `urlparse`: `urlsplit`, then split params off the path when
the scheme uses params and the path contains a `;`. -/
def urlparseL (url : List Char) : Option URLParts :=
  (urlsplitL url).map fun r =>
    if r.scheme ∈ uses_params ∧ ';' ∈ r.path then
      { r with path := (splitparams r.path).1, params := (splitparams r.path).2 }
    else r

/-- First reassignment of `url` in CPython's `urlunsplit`: prepend
`//netloc` (and a leading slash on the path when needed). -/
def unsplitNetloc (scheme netloc url : List Char) : List Char :=
  if netloc ≠ [] ∨
      (scheme ≠ [] ∧ scheme ∈ uses_netloc ∧ url.take 2 ≠ ['/', '/']) then
    '/' :: '/' ::
      (netloc ++ (if url ≠ [] ∧ url.headD '/' ≠ '/' then '/' :: url else url))
  else url

/-- Second reassignment in `urlunsplit`: prepend `scheme:`. -/
def unsplitScheme (scheme url : List Char) : List Char :=
  if scheme ≠ [] then scheme ++ ':' :: url else url

/-- Third reassignment in `urlunsplit`: append `?query`. -/
def unsplitQuery (query url : List Char) : List Char :=
  if query ≠ [] then url ++ '?' :: query else url

/-- Fourth reassignment in `urlunsplit`: append `#fragment`. -/
def unsplitFragment (fragment url : List Char) : List Char :=
  if fragment ≠ [] then url ++ '#' :: fragment else url

/-- CPython's `urlunsplit`: the four sequential reassignments of `url`. -/
def urlunsplitL (scheme netloc url query fragment : List Char) : List Char :=
  unsplitFragment fragment
    (unsplitQuery query (unsplitScheme scheme (unsplitNetloc scheme netloc url)))

/-- CPython's `urlunparse`: re-attach params to the path, then `urlunsplit`. -/
def urlunparseL (p : URLParts) : List Char :=
  urlunsplitL p.scheme p.netloc
    (if p.params ≠ [] then p.path ++ ';' :: p.params else p.path)
    p.query p.fragment

/-- Python `path.rstrip('/')`: remove all trailing slashes. -/
def rstripSlash (l : List Char) : List Char :=
  (l.reverse.dropWhile (· = '/')).reverse

/-- `parsed.path.rstrip('/') or '/'`: the normalized path. -/
def normPath (l : List Char) : List Char :=
  if rstripSlash l = [] then ['/'] else rstripSlash l

/-- `normalize_url` on `List Char`: re-assemble with the path stripped of
trailing slashes (the root path becomes `/`) and the fragment dropped. -/
def normalizeL (url : List Char) : Option (List Char) :=
  (urlparseL url).map fun p =>
    urlunparseL { p with path := normPath p.path, fragment := [] }

/-- `normalize_url` from `crawler.py`. -/
def normalize_url (s : String) : Option String :=
  (normalizeL s.data).map fun l => String.mk l

/-! ### Robots policy checker -/

/-- `USER_AGENT` from `crawler.py`. -/
def USER_AGENT : String :=
  "Mozilla/5.0 (Windows NT 10.0; Win64; x64) AppleWebKit/537.36 (KHTML, like Gecko) Chrome/120.0.0.0 Safari/537.36"

/-- The robots URL `f"{parsed.scheme}://{parsed.netloc}/robots.txt"`. -/
def robotsUrlOf (p : URLParts) : String :=
  String.mk (p.scheme ++ ':' :: '/' :: '/' :: (p.netloc ++ "/robots.txt".data))

/-- `check_robots` from `crawler.py`. The network and `RobotFileParser` are
modelled by an oracle: `robotsOracle robots_url` is `none` when
`rp.read()` raises (fetch/parse failure), and `some can_fetch` for a
successfully parsed file, where `can_fetch agent url` is
`rp.can_fetch(agent, url)`. The outer `Option` models `urlparse` failure. -/
def check_robots (robotsOracle : String → Option (String → String → Bool))
    (url : String) : Option (Bool × String) :=
  (urlparseL url.data).map fun p =>
    let robots_url := robotsUrlOf p
    match robotsOracle robots_url with
    | none => (true, robots_url)
    | some can_fetch => (can_fetch USER_AGENT url, robots_url)

/-! ### Page records and fetching -/

/-- `MAX_PAGES` from `crawler.py`. -/
def MAX_PAGES : Nat := 5

/-- The content `scrape_page` extracts from a successfully fetched page,
including the `_internal_links` list (already canonicalized by
`get_internal_links`). -/
structure PageContent where
  title : Option String
  meta_description : Option String
  og_title : Option String
  canonical : Option String
  h1_tags : List String
  h2_tags : List String
  h3_tags : List String
  word_count : Nat
  has_mobile_friendly : Bool
  images_without_alt : Nat
  internal_links_count : Nat
  internal_links : List String
deriving DecidableEq, Repr

/-- Outcome of one `session.get` + extraction in `scrape_page`: a request
failure with its message, or the extracted content. -/
inductive FetchOutcome where
  | failure (msg : String)
  | success (content : PageContent)
deriving DecidableEq, Repr

/-- The dict `scrape_page` returns (after `_internal_links` is popped by the
scheduler). `error = none` models absence of the `"error"` key. -/
structure PageRecord where
  url : String
  title : Option String
  meta_description : Option String
  h1_tags : List String
  h2_tags : List String
  h3_tags : List String
  word_count : Nat
  has_mobile_friendly : Bool
  canonical : Option String
  og_title : Option String
  images_without_alt : Nat
  internal_links_count : Nat
  error : Option String
deriving DecidableEq, Repr

/-- `scrape_page` from `crawler.py`, with the network/HTML parsing modelled
by the `web` oracle. On failure the defaults initialized at the top of the
function are returned with `error` set and no `_internal_links` key (the
scheduler's `pop` then yields `[]`); on success the extracted fields are
filled in. Returns the record together with the popped `_internal_links`. -/
def scrape_page (web : String → FetchOutcome) (url : String) :
    PageRecord × List String :=
  match web url with
  | .failure msg =>
    ({ url := url, title := none, meta_description := none, h1_tags := [],
       h2_tags := [], h3_tags := [], word_count := 0,
       has_mobile_friendly := false, canonical := none, og_title := none,
       images_without_alt := 0, internal_links_count := 0,
       error := some msg }, [])
  | .success c =>
    ({ url := url, title := c.title, meta_description := c.meta_description,
       h1_tags := c.h1_tags, h2_tags := c.h2_tags, h3_tags := c.h3_tags,
       word_count := c.word_count,
       has_mobile_friendly := c.has_mobile_friendly,
       canonical := c.canonical, og_title := c.og_title,
       images_without_alt := c.images_without_alt,
       internal_links_count := c.internal_links_count,
       error := none }, c.internal_links)

/-- The links a fetch outcome contributes to the frontier. -/
def linksOf : FetchOutcome → List String
  | .failure _ => []
  | .success c => c.internal_links

/-! ### Issues and summary -/

/-- One entry of `summary["issues"]`. -/
structure Issue where
  level : String
  text : String
  pages : List String
deriving DecidableEq, Repr

/-- `build_issues` from `crawler.py`: a fixed rule chain appending issues in
source order (title, meta, multiple H1, missing H1, mobile, images, average
words). Python's list truthiness is `≠ []`. -/
def build_issues (missing_title missing_meta missing_h1 multiple_h1
    non_mobile : List String) (images_no_alt avg_words : Nat) : List Issue :=
  (if !missing_title.isEmpty then
    [⟨"red", toString missing_title.length ++ " sayfada başlık (title) eksik",
      missing_title⟩] else []) ++
  (if !missing_meta.isEmpty then
    [⟨"red", toString missing_meta.length ++ " sayfada meta açıklama eksik",
      missing_meta⟩] else []) ++
  (if !multiple_h1.isEmpty then
    [⟨"orange", toString multiple_h1.length ++
      " sayfada birden fazla H1 var (SEO hatası)", multiple_h1⟩] else []) ++
  (if !missing_h1.isEmpty then
    [⟨"orange", toString missing_h1.length ++ " sayfada H1 etiketi yok",
      missing_h1⟩] else []) ++
  (if !non_mobile.isEmpty then
    [⟨"red", toString non_mobile.length ++ " sayfa mobil uyumsuz",
      non_mobile⟩] else []) ++
  (if images_no_alt > 0 then
    [⟨"orange", "Toplam " ++ toString images_no_alt ++
      " görselde alt etiketi eksik", []⟩] else []) ++
  (if avg_words < 300 then
    [⟨"orange", "Ortalama sayfa içeriği çok az (" ++ toString avg_words ++
      " kelime)", []⟩] else [])

/-- Python truthiness of an optional string (`None` and `""` are falsy). -/
def truthy : Option String → Bool
  | none => false
  | some s => !s.isEmpty

/-- The `summary` dict built by `build_summary`. -/
structure Summary where
  total_pages_crawled : Nat
  successful_pages : Nat
  error_pages : Nat
  avg_word_count : Nat
  total_images_without_alt : Nat
  pages_missing_title : List String
  pages_missing_meta : List String
  pages_missing_h1 : List String
  pages_with_multiple_h1 : List String
  pages_not_mobile_friendly : List String
  issues : List Issue
deriving DecidableEq, Repr

/-- `ok_pages` of `build_summary`: the pages without an `"error"` key. -/
def ok_pages_of (pages : List PageRecord) : List PageRecord :=
  pages.filter fun p => p.error = none

/-- `missing_title` of `build_summary` (`not p.get("title")`). -/
def missing_title_of (pages : List PageRecord) : List String :=
  ((ok_pages_of pages).filter fun p => !truthy p.title).map fun p => p.url

/-- `missing_meta` of `build_summary` (`not p.get("meta_description")`). -/
def missing_meta_of (pages : List PageRecord) : List String :=
  ((ok_pages_of pages).filter fun p => !truthy p.meta_description).map fun p => p.url

/-- `missing_h1` of `build_summary` (`not p.get("h1_tags")`). -/
def missing_h1_of (pages : List PageRecord) : List String :=
  ((ok_pages_of pages).filter fun p => p.h1_tags.isEmpty).map fun p => p.url

/-- `multiple_h1` of `build_summary` (`len(p.get("h1_tags", [])) > 1`). -/
def multiple_h1_of (pages : List PageRecord) : List String :=
  ((ok_pages_of pages).filter fun p => p.h1_tags.length > 1).map fun p => p.url

/-- `non_mobile` of `build_summary` (`not p.get("has_mobile_friendly")`). -/
def non_mobile_of (pages : List PageRecord) : List String :=
  ((ok_pages_of pages).filter fun p => !p.has_mobile_friendly).map fun p => p.url

/-- `total_images_no_alt` of `build_summary`. -/
def total_images_no_alt_of (pages : List PageRecord) : Nat :=
  ((ok_pages_of pages).map fun p => p.images_without_alt).sum

/-- `avg_word_count` of `build_summary`: `int(sum/len)` truncates the
non-negative float quotient toward zero, i.e. floor division, modelled by
`Nat` division; `0` when there is no successful page. -/
def avg_word_count_of (pages : List PageRecord) : Nat :=
  if ok_pages_of pages ≠ [] then
    ((ok_pages_of pages).map fun p => p.word_count).sum / (ok_pages_of pages).length
  else 0

/-- `build_summary` from `crawler.py`. `none` models the empty dict returned
for an empty page list. `base_url` and `robots_url` are accepted and unused,
exactly as in the source. -/
def build_summary (pages : List PageRecord) (base_url robots_url : String) :
    Option Summary :=
  if pages = [] then none
  else
    some ⟨pages.length, (ok_pages_of pages).length,
      pages.length - (ok_pages_of pages).length,
      avg_word_count_of pages, total_images_no_alt_of pages,
      missing_title_of pages, missing_meta_of pages, missing_h1_of pages,
      multiple_h1_of pages, non_mobile_of pages,
      build_issues (missing_title_of pages) (missing_meta_of pages)
        (missing_h1_of pages) (multiple_h1_of pages) (non_mobile_of pages)
        (total_images_no_alt_of pages) (avg_word_count_of pages)⟩

/-! ### Crawl scheduler -/

/-- The sequential enqueueing of discovered links: each link is appended to
the frontier iff it is in neither the visited set nor the current frontier
(later links see the earlier appends, as in the Python `for` loop). -/
def enqueue (visited : List String) : List String → List String → List String
  | q, [] => q
  | q, l :: ls =>
    if l ∈ visited ∨ l ∈ q then enqueue visited q ls
    else enqueue visited (q ++ [l]) ls

/-- The `while` loop of `scrape_seo`: pop the head of the FIFO frontier,
skip it if visited, otherwise mark visited, fetch, append the record to
`pages` and enqueue its fresh links, while fewer than `MAX_PAGES` pages
have been collected. -/
def crawlLoop (web : String → FetchOutcome) (to_visit visited : List String)
    (pages : List PageRecord) : List PageRecord :=
  match to_visit with
  | [] => pages
  | current :: rest =>
    if h : MAX_PAGES ≤ pages.length then pages
    else if current ∈ visited then crawlLoop web rest visited pages
    else
      crawlLoop web (enqueue (visited ++ [current]) rest (scrape_page web current).2)
        (visited ++ [current]) (pages ++ [(scrape_page web current).1])
termination_by (MAX_PAGES - pages.length, to_visit.length)
decreasing_by
  · apply Prod.Lex.right
    simp
  · apply Prod.Lex.left
    simp only [List.length_append, List.length_cons, List.length_nil]
    omega

/-! ### Crawl result -/

/-- The two dict shapes `scrape_seo` can return: the robots-disallowed
literal (with an `error` key) and the normal completion literal (with the
homepage mirror fields and no `error` key). Constructor arguments follow
the key order of the corresponding dict literal in the source. -/
inductive CrawlResult where
  | blocked (url : String) (robots_checked : Bool) (robots_url : String)
      (error : String) (pages : List PageRecord) (summary : Option Summary)
  | completed (url : String) (robots_checked : Bool) (robots_url : String)
      (pages : List PageRecord) (summary : Option Summary)
      (title : Option String) (meta_description : Option String)
      (h1_tags : List String) (h2_tags : List String)
      (word_count : Nat) (has_mobile_friendly : Bool)
deriving DecidableEq, Repr

/-- The keys of the returned dict, in literal order. -/
def CrawlResult.keys : CrawlResult → List String
  | .blocked .. =>
    ["url", "robots_checked", "robots_url", "error", "pages", "summary"]
  | .completed .. =>
    ["url", "robots_checked", "robots_url", "pages", "summary", "title",
     "meta_description", "h1_tags", "h2_tags", "word_count",
     "has_mobile_friendly"]

/-- The scheme-defaulting prelude of `scrape_seo`:
`url.startswith(("http://", "https://"))`, else prepend `https://`. -/
def addScheme (url : String) : String :=
  if "http://".data.isPrefixOf url.data || "https://".data.isPrefixOf url.data then url
  else "https://" ++ url

/-- `scrape_seo` from `crawler.py`, parameterized by the robots oracle and
the web oracle. The outer `Option` propagates `urlparse` model failure from
`normalize_url`/`check_robots`. -/
def scrape_seo (robotsOracle : String → Option (String → String → Bool))
    (web : String → FetchOutcome) (url : String) : Option CrawlResult :=
  let url₁ := addScheme url
  (normalize_url url₁).bind fun base_url =>
  (check_robots robotsOracle base_url).map fun ar =>
    if ar.1 = false then
      .blocked base_url true ar.2
        ("robots.txt tarafından engellendi: " ++ ar.2) [] none
    else
      let pages := crawlLoop web [base_url] [] []
      .completed base_url true ar.2 pages (build_summary pages base_url ar.2)
        (match pages with | [] => none | p :: _ => p.title)
        (match pages with | [] => none | p :: _ => p.meta_description)
        (match pages with | [] => [] | p :: _ => p.h1_tags)
        (match pages with | [] => [] | p :: _ => p.h2_tags)
        (match pages with | [] => 0 | p :: _ => p.word_count)
        (match pages with | [] => false | p :: _ => p.has_mobile_friendly)

/-! ### Spec-side definitions (for refinement comparisons) and fixtures -/

/-- Emit the issues of a rule table: each issue appears iff its condition
holds, in table order. -/
def emit_issues (rules : List (Bool × Issue)) : List Issue :=
  rules.filterMap fun r => if r.1 then some r.2 else none

/-- Modelled from the claim wording (spec §4.6): the issue list in the
order and with the levels the claim states — multiple H1 (orange), images
without alt (orange, empty page list), missing title (red), missing meta
description (orange), missing H1 (orange), not mobile-friendly (red), low
average word count (orange, empty page list). Texts are the code's (the
claim does not constrain them). -/
def spec_claimed_issues (missing_title missing_meta missing_h1 multiple_h1
    non_mobile : List String) (images_no_alt avg_words : Nat) : List Issue :=
  (if !multiple_h1.isEmpty then
    [⟨"orange", toString multiple_h1.length ++
      " sayfada birden fazla H1 var (SEO hatası)", multiple_h1⟩] else []) ++
  (if images_no_alt > 0 then
    [⟨"orange", "Toplam " ++ toString images_no_alt ++
      " görselde alt etiketi eksik", []⟩] else []) ++
  (if !missing_title.isEmpty then
    [⟨"red", toString missing_title.length ++ " sayfada başlık (title) eksik",
      missing_title⟩] else []) ++
  (if !missing_meta.isEmpty then
    [⟨"orange", toString missing_meta.length ++ " sayfada meta açıklama eksik",
      missing_meta⟩] else []) ++
  (if !missing_h1.isEmpty then
    [⟨"orange", toString missing_h1.length ++ " sayfada H1 etiketi yok",
      missing_h1⟩] else []) ++
  (if !non_mobile.isEmpty then
    [⟨"red", toString non_mobile.length ++ " sayfa mobil uyumsuz",
      non_mobile⟩] else []) ++
  (if avg_words < 300 then
    [⟨"orange", "Ortalama sayfa içeriği çok az (" ++ toString avg_words ++
      " kelime)", []⟩] else [])

/-- Modelled from the claim wording: the exact top-level field set the claim
asserts for every `CrawlResult`. -/
def spec_claimed_fields : List String :=
  ["url", "title", "meta_description", "og_title", "canonical", "h1_tags",
   "h2_tags", "h3_tags", "word_count", "has_mobile_friendly",
   "images_without_alt", "pages", "summary", "error"]

/-- Spec-side notion for the average: `n` is a nearest integer to
`num / den` (what `round` returns, up to tie-breaking). -/
def is_nearest_int (num den n : Nat) : Prop :=
  ∀ m : Nat, ((n : Int) * den - num).natAbs ≤ ((m : Int) * den - num).natAbs

/-- Fixture: extracted content of a blank page (no metadata, no links). -/
def emptyContent : PageContent :=
  ⟨none, none, none, none, [], [], [], 0, false, 0, 0, []⟩

/-- Fixture: a web where every fetch succeeds with a blank page. -/
def webNoLinks : String → FetchOutcome := fun _ => .success emptyContent

/-- Fixture: robots.txt fetching always fails (network down). -/
def oracleDown : String → Option (String → String → Bool) := fun _ => none

/-- Fixture: robots.txt parses and disallows every URL. -/
def oracleDeny : String → Option (String → String → Bool) :=
  fun _ => some fun _ _ => false

/-- Fixture: a successful page record with the given url, title and word
count, two H1 tags, no meta description, mobile-friendly. -/
def pageFixture : PageRecord :=
  ⟨"u", none, none, ["a", "b"], [], [], 400, true, none, none, 0, 0, none⟩

/-- Fixture: a failed page record (timeout), as `scrape_page` builds it. -/
def errorPage (url : String) : PageRecord :=
  ⟨url, none, none, [], [], [], 0, false, none, none, 0, 0, some "Zaman aşımı"⟩

/-- Fixture: a successful page record with a given url and word count and
no other content. -/
def blankPage (url : String) (wc : Nat) : PageRecord :=
  ⟨url, none, none, [], [], [], wc, false, none, none, 0, 0, none⟩

/-- Fixture: the summary `build_summary` produces for `[blankPage "u" 7]`. -/
def wordCountSummaryFixture : Summary :=
  ⟨1, 1, 0, 7, 0, ["u"], ["u"], ["u"], [], ["u"],
    build_issues ["u"] ["u"] ["u"] [] ["u"] 0 7⟩

/-- Fixture: the summary `build_summary` produces for `[pageFixture]`. -/
def issueSummaryFixture : Summary :=
  ⟨1, 1, 0, 400, 0, ["u"], ["u"], [], ["u"], [],
    build_issues ["u"] ["u"] [] ["u"] [] 0 400⟩

/-- Fixture: the crawl result for a blank single-page site with robots.txt
unavailable. -/
def crawlResultFixture : CrawlResult :=
  .completed "https://a.com/" true "https://a.com/robots.txt"
    [blankPage "https://a.com/" 0]
    (build_summary [blankPage "https://a.com/" 0] "https://a.com/"
      "https://a.com/robots.txt")
    none none [] [] 0 false

/-- Fixture: a four-page site — the start page `s` links to `b` then `cc`,
`b` links to `d`, and `cc`, `d` link nowhere. -/
def webBFS : String → FetchOutcome := fun u =>
  if u = "s" then .success { emptyContent with internal_links := ["b", "cc"] }
  else if u = "b" then .success { emptyContent with internal_links := ["d"] }
  else .success emptyContent

/-- Fixture: a site whose start page carries the hrefs
`http://a.com/x/;p/` and `http://a.com/x/;p` (same domain, differing only
by a trailing slash); `get_internal_links` canonicalizes them to the two
distinct frontier keys `http://a.com/x/;p` and `http://a.com/x;p`, which
this oracle returns as the page's `_internal_links`. -/
def webTrailingSlash : String → FetchOutcome := fun u =>
  if u = "http://a.com/" then
    .success { emptyContent with
      internal_links := ["http://a.com/x/;p", "http://a.com/x;p"] }
  else .success emptyContent

/-- Fixture: the page records collected when crawling `webTrailingSlash`. -/
def trailingSlashPages : List PageRecord :=
  [blankPage "http://a.com/" 0, blankPage "http://a.com/x/;p" 0,
   blankPage "http://a.com/x;p" 0]

/-! ## Helper lemmas: characters -/

theorem char_toNat_ofNat {n : Nat} (h : n < 55296) : (Char.ofNat n).toNat = n := by
  unfold Char.ofNat
  rw [dif_pos (Or.inl h)]
  rfl

theorem char_ext_toNat {a b : Char} (h : a.toNat = b.toNat) : a = b := by
  apply Char.eq_of_val_eq
  exact UInt32.ext h

theorem char_eq_iff_toNat (a b : Char) : a = b ↔ a.toNat = b.toNat :=
  ⟨fun h => h ▸ rfl, char_ext_toNat⟩

theorem uint32_le_iff {a b : UInt32} : a ≤ b ↔ a.toNat ≤ b.toNat := by
  rw [UInt32.le_def, BitVec.le_def]
  rfl

theorem char_isUpper_iff (c : Char) :
    c.isUpper = true ↔ 65 ≤ c.toNat ∧ c.toNat ≤ 90 := by
  simp only [Char.isUpper, Bool.and_eq_true, decide_eq_true_eq, ge_iff_le,
    uint32_le_iff]
  exact Iff.rfl

theorem char_isLower_iff (c : Char) :
    c.isLower = true ↔ 97 ≤ c.toNat ∧ c.toNat ≤ 122 := by
  simp only [Char.isLower, Bool.and_eq_true, decide_eq_true_eq, ge_iff_le,
    uint32_le_iff]
  exact Iff.rfl

theorem char_isDigit_iff (c : Char) :
    c.isDigit = true ↔ 48 ≤ c.toNat ∧ c.toNat ≤ 57 := by
  simp only [Char.isDigit, Bool.and_eq_true, decide_eq_true_eq, ge_iff_le,
    uint32_le_iff]
  exact Iff.rfl

theorem char_isAlpha_iff (c : Char) :
    c.isAlpha = true ↔ (65 ≤ c.toNat ∧ c.toNat ≤ 90) ∨
      (97 ≤ c.toNat ∧ c.toNat ≤ 122) := by
  simp only [Char.isAlpha, Bool.or_eq_true, char_isUpper_iff, char_isLower_iff]

theorem char_toNat_toLower (c : Char) :
    (Char.toLower c).toNat =
      if 65 ≤ c.toNat ∧ c.toNat ≤ 90 then c.toNat + 32 else c.toNat := by
  have hshow : Char.toLower c =
      if 65 ≤ c.toNat ∧ c.toNat ≤ 90 then Char.ofNat (c.toNat + 32) else c := rfl
  rw [hshow]
  by_cases h : 65 ≤ c.toNat ∧ c.toNat ≤ 90
  · rw [if_pos h, if_pos h]
    exact char_toNat_ofNat (by omega)
  · rw [if_neg h, if_neg h]

theorem schemeChar_iff (c : Char) :
    schemeChar c = true ↔ (65 ≤ c.toNat ∧ c.toNat ≤ 90) ∨
      (97 ≤ c.toNat ∧ c.toNat ≤ 122) ∨ (48 ≤ c.toNat ∧ c.toNat ≤ 57) ∨
      c.toNat = 43 ∨ c.toNat = 45 ∨ c.toNat = 46 := by
  have h43 : ('+' : Char).toNat = 43 := rfl
  have h45 : ('-' : Char).toNat = 45 := rfl
  have h46 : ('.' : Char).toNat = 46 := rfl
  simp only [schemeChar, Bool.or_eq_true, char_isAlpha_iff, char_isDigit_iff,
    decide_eq_true_eq, char_eq_iff_toNat, h43, h45, h46]
  omega

theorem unsafeByte_iff (c : Char) :
    unsafeByte c = true ↔ c.toNat = 9 ∨ c.toNat = 13 ∨ c.toNat = 10 := by
  have h9 : ('\t' : Char).toNat = 9 := rfl
  have h13 : ('\r' : Char).toNat = 13 := rfl
  have h10 : ('\n' : Char).toNat = 10 := rfl
  simp only [unsafeByte, Bool.or_eq_true, decide_eq_true_eq,
    char_eq_iff_toNat, h9, h13, h10]
  omega

theorem toLower_toLower (c : Char) :
    Char.toLower (Char.toLower c) = Char.toLower c := by
  apply char_ext_toNat
  rw [char_toNat_toLower, char_toNat_toLower]
  split_ifs <;> omega

theorem schemeChar_toLower {c : Char} (h : schemeChar c = true) :
    schemeChar (Char.toLower c) = true := by
  rw [schemeChar_iff] at h ⊢
  rw [char_toNat_toLower]
  split_ifs <;> omega

theorem isAlpha_toLower {c : Char} (h : c.isAlpha = true) :
    (Char.toLower c).isAlpha = true := by
  rw [char_isAlpha_iff] at h ⊢
  rw [char_toNat_toLower]
  split_ifs <;> omega

theorem schemeChar_gt32 {c : Char} (h : schemeChar c = true) : 32 < c.toNat := by
  rw [schemeChar_iff] at h
  omega

theorem schemeChar_not_unsafe {c : Char} (h : schemeChar c = true) :
    unsafeByte c = false := by
  rw [← Bool.not_eq_true, unsafeByte_iff]
  rw [schemeChar_iff] at h
  omega

theorem schemeChar_ne_colon {c : Char} (h : schemeChar c = true) : c ≠ ':' := by
  have hc : (':' : Char).toNat = 58 := rfl
  rw [schemeChar_iff] at h
  intro he
  rw [char_eq_iff_toNat, hc] at he
  omega

/-! ## Helper lemmas: URL parsing -/

theorem splitAtFirst_fst_not_mem (c : Char) (l : List Char) :
    c ∉ (splitAtFirst c l).1 := by
  unfold splitAtFirst
  split
  · intro hm
    have := List.mem_takeWhile_imp hm
    simp at this
  · next h => exact h

theorem splitAtFirst_fst_subset (c : Char) (l : List Char) :
    ∀ x ∈ (splitAtFirst c l).1, x ∈ l := by
  unfold splitAtFirst
  split
  · exact fun x hx => List.takeWhile_subset _ hx
  · exact fun x hx => hx

theorem splitAtFirst_snd_subset (c : Char) (l : List Char) :
    ∀ x ∈ (splitAtFirst c l).2, x ∈ l := by
  unfold splitAtFirst
  split
  · exact fun x hx => List.dropWhile_subset _ (List.mem_of_mem_tail hx)
  · simp

theorem splitAtFirst_not_mem {c : Char} {l : List Char} (h : c ∉ l) :
    splitAtFirst c l = (l, []) := by
  unfold splitAtFirst
  rw [if_neg h]

theorem takeWhile_ne_append {c : Char} {a : List Char} (b : List Char)
    (ha : c ∉ a) : (a ++ c :: b).takeWhile (· ≠ c) = a := by
  rw [List.takeWhile_append_of_pos (by
    intro x hx
    have hne : x ≠ c := fun he => ha (he ▸ hx)
    simpa using hne)]
  rw [List.takeWhile_cons_of_neg (by simp)]
  simp

theorem dropWhile_ne_append {c : Char} {a : List Char} (b : List Char)
    (ha : c ∉ a) : (a ++ c :: b).dropWhile (· ≠ c) = c :: b := by
  rw [List.dropWhile_append_of_pos (by
    intro x hx
    have hne : x ≠ c := fun he => ha (he ▸ hx)
    simpa using hne)]
  rw [List.dropWhile_cons_of_neg (by simp)]

theorem splitAtFirst_append {c : Char} {a : List Char} (b : List Char)
    (ha : c ∉ a) : splitAtFirst c (a ++ c :: b) = (a, b) := by
  unfold splitAtFirst
  rw [if_pos (by simp)]
  rw [takeWhile_ne_append b ha, dropWhile_ne_append b ha]
  rfl

theorem splitAtFirst_fst_headD (c : Char) (l : List Char) (d : Char) :
    (splitAtFirst c l).1 = [] ∨ (splitAtFirst c l).1.headD d = l.headD d := by
  unfold splitAtFirst
  split
  · cases l with
    | nil => exact Or.inl rfl
    | cons x xs =>
      by_cases hx : x = c
      · subst hx
        rw [List.takeWhile_cons_of_neg (by simp)]
        exact Or.inl rfl
      · rw [List.takeWhile_cons_of_pos (by simpa using hx)]
        exact Or.inr rfl
  · exact Or.inr rfl

theorem headD_append_left {a : List Char} (b : List Char) (d : Char)
    (h : a ≠ []) : (a ++ b).headD d = a.headD d := by
  cases a with
  | nil => exact absurd rfl h
  | cons x xs => rfl

theorem prefix_headD {a b : List Char} (d : Char) (h : a <+: b) (hne : a ≠ []) :
    b.headD d = a.headD d := by
  obtain ⟨t, ht⟩ := h
  rw [← ht, headD_append_left t d hne]

theorem rstripSlash_isPrefixOfSelf (l : List Char) : rstripSlash l <+: l := by
  unfold rstripSlash
  have h := List.dropWhile_suffix (l := l.reverse) (p := (· = '/'))
  have h2 := List.reverse_prefix.mpr h
  rwa [List.reverse_reverse] at h2

theorem rstripSlash_subset (l : List Char) : ∀ x ∈ rstripSlash l, x ∈ l :=
  fun _ hx => (rstripSlash_isPrefixOfSelf l).subset hx

theorem dropWhile_idem (p : Char → Bool) (l : List Char) :
    (l.dropWhile p).dropWhile p = l.dropWhile p := by
  induction l with
  | nil => rfl
  | cons a t ih =>
    by_cases hpa : p a
    · rw [List.dropWhile_cons_of_pos hpa, ih]
    · rw [List.dropWhile_cons_of_neg hpa, List.dropWhile_cons_of_neg hpa]

theorem rstripSlash_idem (l : List Char) :
    rstripSlash (rstripSlash l) = rstripSlash l := by
  unfold rstripSlash
  rw [List.reverse_reverse, dropWhile_idem]

theorem rstripSlash_singleton : rstripSlash ['/'] = [] := rfl

theorem normPath_ne_nil (l : List Char) : normPath l ≠ [] := by
  unfold normPath
  split
  · simp
  · assumption

theorem normPath_idem (l : List Char) : normPath (normPath l) = normPath l := by
  unfold normPath
  by_cases h : rstripSlash l = []
  · rw [if_pos h, if_pos rstripSlash_singleton]
  · rw [if_neg h]
    rw [if_neg (by rwa [rstripSlash_idem]), rstripSlash_idem]

theorem normPath_headD {l : List Char} (h : l = [] ∨ l.headD ' ' = '/') :
    (normPath l).headD ' ' = '/' := by
  unfold normPath
  by_cases hr : rstripSlash l = []
  · rw [if_pos hr]
    rfl
  · rw [if_neg hr]
    rcases h with h | h
    · subst h
      exact absurd rfl hr
    · rw [prefix_headD ' ' (rstripSlash_isPrefixOfSelf l) hr] at h
      exact h
  
theorem normPath_not_mem {c : Char} {l : List Char} (hc : c ≠ '/')
    (h : c ∉ l) : c ∉ normPath l := by
  unfold normPath
  split
  · simpa using hc
  · exact fun hm => h (rstripSlash_subset l c hm)

theorem normPath_mem {c : Char} {l : List Char} (h : c ∈ normPath l) :
    c ∈ l ∨ c = '/' := by
  revert h
  unfold normPath
  split
  · intro h
    simp at h
    exact Or.inr h
  · intro h
    exact Or.inl (rstripSlash_subset l c h)

theorem sanitize_clean (l : List Char) :
    ∀ c ∈ sanitize l, unsafeByte c = false := by
  intro c hc
  unfold sanitize at hc
  have h := (List.mem_filter.mp hc).2
  simpa using h

theorem sanitize_eq_self {l : List Char}
    (hhead : l = [] ∨ 32 < (l.headD ' ').toNat)
    (hclean : ∀ c ∈ l, unsafeByte c = false) : sanitize l = l := by
  unfold sanitize
  have hdrop : (l.dropWhile fun c => c.toNat ≤ 32) = l := by
    cases l with
    | nil => rfl
    | cons c tl =>
      rcases hhead with h | h
      · simp at h
      · have hc : 32 < c.toNat := by simpa using h
        rw [List.dropWhile_cons_of_neg (by simp only [decide_eq_true_eq]; omega)]
  rw [hdrop, List.filter_eq_self.mpr]
  intro a ha
  simp [hclean a ha]

theorem splitScheme_spec (l : List Char) :
    splitScheme l = ([], l) ∨
    ∃ rest, splitScheme l = ((l.takeWhile (· ≠ ':')).map Char.toLower, rest) ∧
      l.takeWhile (· ≠ ':') ≠ [] ∧
      ((l.takeWhile (· ≠ ':')).headD '0').isAlpha = true ∧
      (l.takeWhile (· ≠ ':')).all schemeChar = true := by
  unfold splitScheme
  split
  · exact Or.inl rfl
  · split_ifs with h
    · exact Or.inr ⟨_, rfl, h⟩
    · exact Or.inl rfl

theorem splitScheme_snd_subset (l : List Char) :
    ∀ x ∈ (splitScheme l).2, x ∈ l := by
  unfold splitScheme
  split
  · simp
  · next c rest hd =>
    split_ifs
    · intro x hx
      apply List.dropWhile_subset (p := (· ≠ ':'))
      rw [hd]
      exact List.mem_cons_of_mem c hx
    · simp

theorem splitScheme_build {s : List Char} (rest : List Char) (hne : s ≠ [])
    (halpha : (s.headD '0').isAlpha = true) (hall : s.all schemeChar = true)
    (hlow : s.map Char.toLower = s) :
    splitScheme (s ++ ':' :: rest) = (s, rest) := by
  have hcolon : ':' ∉ s := by
    intro hm
    exact schemeChar_ne_colon (List.all_eq_true.mp hall ':' hm) rfl
  unfold splitScheme
  rw [takeWhile_ne_append rest hcolon, dropWhile_ne_append rest hcolon]
  show (if s ≠ [] ∧ (s.headD '0').isAlpha = true ∧ s.all schemeChar = true
    then (List.map Char.toLower s, rest) else ([], s ++ ':' :: rest)) = (s, rest)
  rw [if_pos ⟨hne, halpha, hall⟩, hlow]

theorem splitNetloc_fst_all (l : List Char) :
    (splitNetloc l).1.all (fun c => !netlocDelim c) = true := by
  unfold splitNetloc
  split
  · exact List.all_takeWhile
  · rfl

theorem splitNetloc_fst_subset (l : List Char) :
    ∀ x ∈ (splitNetloc l).1, x ∈ l := by
  unfold splitNetloc
  split
  · intro x hx
    exact List.mem_cons_of_mem _ (List.mem_cons_of_mem _
      (List.takeWhile_subset _ hx))
  · simp

theorem splitNetloc_snd_subset (l : List Char) :
    ∀ x ∈ (splitNetloc l).2, x ∈ l := by
  unfold splitNetloc
  split
  · intro x hx
    exact List.mem_cons_of_mem _ (List.mem_cons_of_mem _
      (List.dropWhile_subset _ hx))
  · exact fun x hx => hx

theorem dropWhile_headD_not (p : Char → Bool) (l : List Char) (d : Char)
    (h : l.dropWhile p ≠ []) : p ((l.dropWhile p).headD d) = false := by
  induction l with
  | nil => simp at h
  | cons a t ih =>
    by_cases hpa : p a
    · rw [List.dropWhile_cons_of_pos hpa] at h ⊢
      exact ih h
    · rw [List.dropWhile_cons_of_neg hpa]
      simpa using hpa

theorem splitNetloc_inv (l : List Char) (h : (splitNetloc l).1 ≠ []) :
    (splitNetloc l).2 = [] ∨ netlocDelim ((splitNetloc l).2.headD ' ') = true := by
  revert h
  unfold splitNetloc
  split
  · next rest =>
    intro _
    by_cases hd : List.dropWhile (fun c => !netlocDelim c) rest = []
    · exact Or.inl hd
    · refine Or.inr ?_
      have hx := dropWhile_headD_not (fun c => !netlocDelim c) rest ' ' hd
      simpa using hx
  · intro h
    exact absurd rfl h

theorem splitNetloc_build {n : List Char} (tail : List Char)
    (hn : n.all (fun c => !netlocDelim c) = true)
    (htail : tail = [] ∨ netlocDelim (tail.headD ' ') = true) :
    splitNetloc ('/' :: '/' :: (n ++ tail)) = (n, tail) := by
  have hall : ∀ x ∈ n, (fun c => !netlocDelim c) x = true :=
    List.all_eq_true.mp hn
  have htw : (n ++ tail).takeWhile (fun c => !netlocDelim c) = n := by
    rw [List.takeWhile_append_of_pos hall]
    rcases htail with h | h
    · rw [h]
      simp
    · cases tail with
      | nil => simp
      | cons x xs =>
        rw [List.takeWhile_cons_of_neg (by simpa using h)]
        simp
  have hdw : (n ++ tail).dropWhile (fun c => !netlocDelim c) = tail := by
    rw [List.dropWhile_append_of_pos hall]
    rcases htail with h | h
    · rw [h]
      rfl
    · cases tail with
      | nil => rfl
      | cons x xs =>
        rw [List.dropWhile_cons_of_neg (by simpa using h)]
  show ((n ++ tail).takeWhile (fun c => !netlocDelim c),
    (n ++ tail).dropWhile (fun c => !netlocDelim c)) = (n, tail)
  rw [htw, hdw]

theorem urlsplitL_inv {u : List Char} {ps : URLParts}
    (h : urlsplitL u = some ps) :
    ps = ⟨(splitScheme (sanitize u)).1,
      (splitNetloc (splitScheme (sanitize u)).2).1,
      (splitAtFirst '?'
        (splitAtFirst '#' (splitNetloc (splitScheme (sanitize u)).2).2).1).1,
      [],
      (splitAtFirst '?'
        (splitAtFirst '#' (splitNetloc (splitScheme (sanitize u)).2).2).1).2,
      (splitAtFirst '#' (splitNetloc (splitScheme (sanitize u)).2).2).2⟩ ∧
    '[' ∉ (splitNetloc (splitScheme (sanitize u)).2).1 ∧
    ']' ∉ (splitNetloc (splitScheme (sanitize u)).2).1 ∧
    (splitNetloc (splitScheme (sanitize u)).2).1.all
      (fun c => c.toNat ≤ 127) = true := by
  unfold urlsplitL at h
  split_ifs at h with h1 h2
  · rw [Option.some_inj] at h
    push_neg at h1
    refine ⟨h.symm, h1.1, h1.2, by simpa using h2⟩

theorem urlparse_of_urlsplit {u : List Char} {ps : URLParts}
    (hsplit : urlsplitL u = some ps) (hsemi : ';' ∉ ps.path) :
    urlparseL u = some ps := by
  unfold urlparseL
  rw [hsplit]
  simp only [Option.map_some', Option.some_inj]
  rw [if_neg (by intro hc; exact hsemi hc.2)]

theorem netlocDelim_iff (c : Char) :
    netlocDelim c = true ↔ c = '/' ∨ c = '?' ∨ c = '#' := by
  simp [netlocDelim, or_assoc]

theorem splitAtFirst_fst_eq_nil_of_head {c : Char} {l : List Char}
    (h : l ≠ []) (hh : l.headD ' ' = c) : (splitAtFirst c l).1 = [] := by
  cases l with
  | nil => exact absurd rfl h
  | cons x xs =>
    have hx : x = c := by simpa using hh
    subst hx
    unfold splitAtFirst
    rw [if_pos (List.mem_cons_self x xs)]
    show (x :: xs).takeWhile (· ≠ x) = []
    rw [List.takeWhile_cons_of_neg (by simp)]

theorem urlsplit_facts {u : List Char} {ps : URLParts}
    (h : urlsplitL u = some ps) :
    (ps.scheme = [] ∨ (ps.scheme ≠ [] ∧ (ps.scheme.headD '0').isAlpha = true ∧
      ps.scheme.all schemeChar = true ∧
      ps.scheme.map Char.toLower = ps.scheme)) ∧
    ps.netloc.all (fun c => !netlocDelim c) = true ∧
    '[' ∉ ps.netloc ∧ ']' ∉ ps.netloc ∧
    ps.netloc.all (fun c => c.toNat ≤ 127) = true ∧
    (∀ c ∈ ps.netloc, unsafeByte c = false) ∧
    (ps.netloc ≠ [] → (ps.path = [] ∨ ps.path.headD ' ' = '/')) ∧
    '#' ∉ ps.path ∧ '?' ∉ ps.path ∧ (∀ c ∈ ps.path, unsafeByte c = false) ∧
    '#' ∉ ps.query ∧ (∀ c ∈ ps.query, unsafeByte c = false) ∧
    ps.params = [] := by
  obtain ⟨hps, hbr1, hbr2, hascii⟩ := urlsplitL_inv h
  subst hps
  refine ⟨?_, ?_, hbr1, hbr2, hascii, ?_, ?_, ?_, ?_, ?_, ?_, ?_, rfl⟩
  · rcases splitScheme_spec (sanitize u) with hs | ⟨rest, hs, hne, halpha, hall⟩
    · rw [hs]
      exact Or.inl rfl
    · rw [hs]
      refine Or.inr ⟨fun he => hne (List.map_eq_nil_iff.mp he), ?_, ?_, ?_⟩
      · cases htw : (sanitize u).takeWhile (· ≠ ':') with
        | nil => exact absurd htw hne
        | cons x xs =>
          rw [htw] at halpha
          have hx : x.isAlpha = true := by simpa using halpha
          simpa using isAlpha_toLower hx
      · rw [List.all_map]
        rw [List.all_eq_true] at hall ⊢
        intro x hx
        exact schemeChar_toLower (hall x hx)
      · rw [List.map_map]
        apply List.map_congr_left
        intro x _
        exact toLower_toLower x
  · exact splitNetloc_fst_all _
  · intro c hc
    exact sanitize_clean u c
      (splitScheme_snd_subset _ c (splitNetloc_fst_subset _ c hc))
  · intro hnl
    have hsnd := splitNetloc_inv _ hnl
    rcases hsnd with hsnd | hsnd
    · rw [hsnd]
      rw [splitAtFirst_not_mem (List.not_mem_nil _), splitAtFirst_not_mem (List.not_mem_nil _)]
      exact Or.inl rfl
    · have hsndne : (splitNetloc (splitScheme (sanitize u)).2).2 ≠ [] := by
        intro he
        rw [he] at hsnd
        exact absurd hsnd (by decide)
      rcases (netlocDelim_iff _).mp hsnd with hh | hh | hh
      · rcases splitAtFirst_fst_headD '#'
            (splitNetloc (splitScheme (sanitize u)).2).2 ' ' with h1 | h1
        · rw [h1, splitAtFirst_not_mem (List.not_mem_nil _)]
          exact Or.inl rfl
        · rcases splitAtFirst_fst_headD '?'
              (splitAtFirst '#' (splitNetloc (splitScheme (sanitize u)).2).2).1
              ' ' with h2 | h2
          · rw [h2]
            exact Or.inl rfl
          · exact Or.inr (by rw [h2, h1, hh])
      · rcases splitAtFirst_fst_headD '#'
            (splitNetloc (splitScheme (sanitize u)).2).2 ' ' with h1 | h1
        · rw [h1, splitAtFirst_not_mem (List.not_mem_nil _)]
          exact Or.inl rfl
        · have hf1ne :
              (splitAtFirst '#' (splitNetloc (splitScheme (sanitize u)).2).2).1
                ≠ [] := by
            intro he
            rw [he] at h1
            rw [hh] at h1
            exact absurd h1 (by decide)
          refine Or.inl ?_
          exact splitAtFirst_fst_eq_nil_of_head hf1ne (h1.trans hh)
      · have hf1 :
            (splitAtFirst '#' (splitNetloc (splitScheme (sanitize u)).2).2).1
              = [] :=
          splitAtFirst_fst_eq_nil_of_head hsndne hh
        rw [hf1, splitAtFirst_not_mem (List.not_mem_nil _)]
        exact Or.inl rfl
  · exact fun hm => splitAtFirst_fst_not_mem '#' _
      (splitAtFirst_fst_subset '?' _ '#' hm)
  · exact fun hm => splitAtFirst_fst_not_mem '?' _ hm
  · intro c hc
    exact sanitize_clean u c (splitScheme_snd_subset _ c
      (splitNetloc_snd_subset _ c (splitAtFirst_fst_subset '#' _ c
        (splitAtFirst_fst_subset '?' _ c hc))))
  · exact fun hm => splitAtFirst_fst_not_mem '#' _
      (splitAtFirst_snd_subset '?' _ '#' hm)
  · intro c hc
    exact sanitize_clean u c (splitScheme_snd_subset _ c
      (splitNetloc_snd_subset _ c (splitAtFirst_fst_subset '#' _ c
        (splitAtFirst_snd_subset '?' _ c hc))))

theorem unsafe_slash : unsafeByte '/' = false := rfl
theorem unsafe_colon : unsafeByte ':' = false := rfl
theorem unsafe_qmark : unsafeByte '?' = false := rfl

theorem urlsplitL_build {s n p q : List Char}
    (hs_ne : s ≠ []) (hs_alpha : (s.headD '0').isAlpha = true)
    (hs_all : s.all schemeChar = true) (hs_low : s.map Char.toLower = s)
    (hn_delim : n.all (fun c => !netlocDelim c) = true)
    (hn_br1 : '[' ∉ n) (hn_br2 : ']' ∉ n)
    (hn_ascii : n.all (fun c => c.toNat ≤ 127) = true)
    (hn_clean : ∀ c ∈ n, unsafeByte c = false)
    (hp_ne : p ≠ []) (hp_head : p.headD ' ' = '/')
    (hp_hash : '#' ∉ p) (hp_q : '?' ∉ p)
    (hp_clean : ∀ c ∈ p, unsafeByte c = false)
    (hq_hash : '#' ∉ q) (hq_clean : ∀ c ∈ q, unsafeByte c = false) :
    urlsplitL (s ++ ':' :: '/' :: '/' ::
        (n ++ (p ++ if q ≠ [] then '?' :: q else []))) =
      some ⟨s, n, p, [], q, []⟩ := by
  have hqpart_mem : ∀ c ∈ (if q ≠ [] then '?' :: q else []),
      c = '?' ∨ c ∈ q := by
    intro c hc
    split at hc
    · rcases List.mem_cons.mp hc with h | h
      · exact Or.inl h
      · exact Or.inr h
    · simp at hc
  have htail_ne : p ++ (if q ≠ [] then '?' :: q else []) ≠ [] := by
    intro he
    rcases List.append_eq_nil.mp he with ⟨h1, _⟩
    exact hp_ne h1
  have htail_head : (p ++ (if q ≠ [] then '?' :: q else [])).headD ' ' = '/' := by
    rw [headD_append_left _ ' ' hp_ne]
    exact hp_head
  have hsan : sanitize (s ++ ':' :: '/' :: '/' ::
      (n ++ (p ++ if q ≠ [] then '?' :: q else []))) =
      s ++ ':' :: '/' :: '/' ::
      (n ++ (p ++ if q ≠ [] then '?' :: q else [])) := by
    apply sanitize_eq_self
    · refine Or.inr ?_
      rw [headD_append_left _ ' ' hs_ne]
      cases s with
      | nil => exact absurd rfl hs_ne
      | cons x xs =>
        have hx : x.isAlpha = true := by simpa using hs_alpha
        rw [char_isAlpha_iff] at hx
        simp only [List.headD_cons]
        omega
    · intro c hc
      simp only [List.mem_append, List.mem_cons] at hc
      rcases hc with hc | hc | hc | hc | hc | hc
      · exact schemeChar_not_unsafe (List.all_eq_true.mp hs_all c hc)
      · exact hc ▸ unsafe_colon
      · exact hc ▸ unsafe_slash
      · exact hc ▸ unsafe_slash
      · exact hn_clean c hc
      · rcases hc with hc | hc
        · exact hp_clean c hc
        · rcases hqpart_mem c hc with hc | hc
          · exact hc ▸ unsafe_qmark
          · exact hq_clean c hc
  have hsch := splitScheme_build
    ('/' :: '/' :: (n ++ (p ++ if q ≠ [] then '?' :: q else [])))
    hs_ne hs_alpha hs_all hs_low
  have hnet := splitNetloc_build (p ++ if q ≠ [] then '?' :: q else [])
    hn_delim (Or.inr (by rw [htail_head]; rfl))
  have hhash : '#' ∉ p ++ (if q ≠ [] then '?' :: q else []) := by
    intro hm
    rcases List.mem_append.mp hm with hm | hm
    · exact hp_hash hm
    · rcases hqpart_mem _ hm with hm | hm
      · exact absurd hm (by decide)
      · exact hq_hash hm
  unfold urlsplitL
  rw [hsan, hsch]
  show (if '[' ∈ (splitNetloc ('/' :: '/' ::
        (n ++ (p ++ if q ≠ [] then '?' :: q else [])))).1 ∨
      ']' ∈ (splitNetloc _).1 then _ else _) = _
  rw [hnet]
  rw [if_neg (by rintro (hm | hm) <;> [exact hn_br1 hm; exact hn_br2 hm])]
  rw [if_neg (not_not_intro hn_ascii)]
  rw [splitAtFirst_not_mem hhash]
  by_cases hq : q = []
  · simp only [hq, ne_eq, not_true_eq_false, if_false]
    rw [List.append_nil]
    rw [splitAtFirst_not_mem hp_q]
  · simp only [ne_eq, hq, not_false_eq_true, if_true]
    rw [splitAtFirst_append q hp_q]

theorem normalizeL_eq {u : List Char} {p : URLParts} (h : urlparseL u = some p)
    (hparams : p.params = []) (hscheme : p.scheme ≠ [])
    (hnetloc : p.netloc ≠ [])
    (hpath : p.path = [] ∨ p.path.headD ' ' = '/') :
    normalizeL u = some (p.scheme ++ ':' :: '/' :: '/' ::
      (p.netloc ++ (normPath p.path ++
        if p.query ≠ [] then '?' :: p.query else []))) := by
  unfold normalizeL
  rw [h]
  simp only [Option.map_some', Option.some_inj]
  unfold urlunparseL urlunsplitL
  show unsplitFragment [] (unsplitQuery p.query (unsplitScheme p.scheme
    (unsplitNetloc p.scheme p.netloc
      (if p.params ≠ [] then normPath p.path ++ ';' :: p.params
       else normPath p.path)))) = _
  rw [if_neg (not_not_intro hparams)]
  unfold unsplitNetloc
  rw [if_pos (Or.inl hnetloc)]
  rw [if_neg (fun hand => hand.2 (by
    cases hnp : normPath p.path with
    | nil => exact absurd hnp (normPath_ne_nil _)
    | cons x xs =>
      have hhd := normPath_headD hpath
      rw [hnp] at hhd
      simpa using hhd))]
  unfold unsplitScheme
  rw [if_pos hscheme]
  unfold unsplitQuery unsplitFragment
  rw [if_neg (not_not_intro rfl)]
  by_cases hq : p.query = []
  · rw [if_neg (not_not_intro hq), hq]
    simp [List.append_assoc]
  · rw [if_pos hq]
    simp only [List.append_assoc, List.cons_append, List.append_nil]
    rw [if_pos hq]

/-! ## Helper lemmas: crawl loop and summaries -/

theorem scrape_page_snd (web : String → FetchOutcome) (u : String) :
    (scrape_page web u).2 = linksOf (web u) := by
  cases h : web u <;> simp [scrape_page, linksOf, h]

theorem scrape_page_url (web : String → FetchOutcome) (u : String) :
    (scrape_page web u).1.url = u := by
  cases h : web u <;> simp [scrape_page, h]

theorem crawlLoop_nil (web : String → FetchOutcome) (v : List String)
    (pgs : List PageRecord) : crawlLoop web [] v pgs = pgs := by
  simp [crawlLoop]

theorem crawlLoop_cap (web : String → FetchOutcome) (c : String)
    (rest v : List String) (pgs : List PageRecord)
    (h : MAX_PAGES ≤ pgs.length) :
    crawlLoop web (c :: rest) v pgs = pgs := by
  simp only [crawlLoop]
  rw [dif_pos h]

theorem crawlLoop_skip (web : String → FetchOutcome) (c : String)
    (rest v : List String) (pgs : List PageRecord)
    (hcap : ¬ MAX_PAGES ≤ pgs.length) (hv : c ∈ v) :
    crawlLoop web (c :: rest) v pgs = crawlLoop web rest v pgs := by
  simp only [crawlLoop]
  rw [dif_neg hcap, if_pos hv]

theorem crawlLoop_step (web : String → FetchOutcome) (c : String)
    (rest v : List String) (pgs : List PageRecord)
    (hcap : ¬ MAX_PAGES ≤ pgs.length) (hv : c ∉ v) :
    crawlLoop web (c :: rest) v pgs =
      crawlLoop web (enqueue (v ++ [c]) rest (scrape_page web c).2)
        (v ++ [c]) (pgs ++ [(scrape_page web c).1]) := by
  simp only [crawlLoop]
  rw [dif_neg hcap, if_neg hv]

theorem crawlLoop_append (web : String → FetchOutcome) (q v : List String)
    (pgs : List PageRecord) : ∃ tl, crawlLoop web q v pgs = pgs ++ tl := by
  induction q, v, pgs using crawlLoop.induct web with
  | case1 v pgs =>
    exact ⟨[], by rw [crawlLoop_nil, List.append_nil]⟩
  | case2 v pgs c rest h =>
    exact ⟨[], by rw [crawlLoop_cap web c rest v pgs h, List.append_nil]⟩
  | case3 v pgs c rest hcap hv ih =>
    obtain ⟨tl, htl⟩ := ih
    exact ⟨tl, by rw [crawlLoop_skip web c rest v pgs hcap hv, htl]⟩
  | case4 v pgs c rest hcap hv ih =>
    obtain ⟨tl, htl⟩ := ih
    refine ⟨(scrape_page web c).1 :: tl, ?_⟩
    rw [crawlLoop_step web c rest v pgs hcap hv, htl, List.append_assoc]
    rfl

theorem emit_issues_cons (b : Bool) (x : Issue) (rs : List (Bool × Issue)) :
    emit_issues ((b, x) :: rs) = (if b then [x] else []) ++ emit_issues rs := by
  cases b <;> simp [emit_issues]

theorem emit_issues_nil : emit_issues [] = [] := rfl

/-- `build_issues` emits exactly the rule table of the source, in source
order: title (red), meta (red), multiple H1 (orange), missing H1 (orange),
mobile (red), images (orange), low average (orange). -/
theorem build_issues_emit (mt mm mh ml nm : List String) (img avg : Nat) :
    build_issues mt mm mh ml nm img avg = emit_issues
      [(!mt.isEmpty, ⟨"red", toString mt.length ++
          " sayfada başlık (title) eksik", mt⟩),
       (!mm.isEmpty, ⟨"red", toString mm.length ++
          " sayfada meta açıklama eksik", mm⟩),
       (!ml.isEmpty, ⟨"orange", toString ml.length ++
          " sayfada birden fazla H1 var (SEO hatası)", ml⟩),
       (!mh.isEmpty, ⟨"orange", toString mh.length ++
          " sayfada H1 etiketi yok", mh⟩),
       (!nm.isEmpty, ⟨"red", toString nm.length ++
          " sayfa mobil uyumsuz", nm⟩),
       (decide (img > 0), ⟨"orange", "Toplam " ++ toString img ++
          " görselde alt etiketi eksik", []⟩),
       (decide (avg < 300), ⟨"orange", "Ortalama sayfa içeriği çok az (" ++
          toString avg ++ " kelime)", []⟩)] := by
  unfold build_issues
  simp only [emit_issues_cons, emit_issues_nil, List.append_nil,
    List.append_assoc, decide_eq_true_eq]

theorem build_summary_eq (pages : List PageRecord) (b r : String) (s : Summary)
    (h : build_summary pages b r = some s) :
    s = ⟨pages.length, (ok_pages_of pages).length,
      pages.length - (ok_pages_of pages).length,
      avg_word_count_of pages, total_images_no_alt_of pages,
      missing_title_of pages, missing_meta_of pages, missing_h1_of pages,
      multiple_h1_of pages, non_mobile_of pages,
      build_issues (missing_title_of pages) (missing_meta_of pages)
        (missing_h1_of pages) (multiple_h1_of pages) (non_mobile_of pages)
        (total_images_no_alt_of pages) (avg_word_count_of pages)⟩ := by
  have hne : pages ≠ [] := by
    intro he
    simp [build_summary, he] at h
  simp only [build_summary, if_neg hne, Option.some.injEq] at h
  exact h.symm

theorem enqueue_subset (visited : List String) (q ls : List String)
    (x : String) (h : x ∈ enqueue visited q ls) : x ∈ q ∨ x ∈ ls := by
  induction ls generalizing q with
  | nil => simp [enqueue] at h; exact Or.inl h
  | cons l ls ih =>
    simp only [enqueue] at h
    split at h
    · rcases ih q h with h' | h'
      · exact Or.inl h'
      · exact Or.inr (List.mem_cons_of_mem l h')
    · rcases ih (q ++ [l]) h with h' | h'
      · rcases List.mem_append.mp h' with h'' | h''
        · exact Or.inl h''
        · simp at h''
          exact Or.inr (h'' ▸ List.mem_cons_self l ls)
      · exact Or.inr (List.mem_cons_of_mem l h')

/-- The urls of the collected pages stay pairwise distinct: every processed
url is fresh with respect to the visited set, and every collected page's
url is in the visited set. -/
theorem crawlLoop_nodup (web : String → FetchOutcome) (q v : List String)
    (pgs : List PageRecord) (hin : ∀ p ∈ pgs, p.url ∈ v)
    (hnd : (pgs.map fun p => p.url).Nodup) :
    ((crawlLoop web q v pgs).map fun p => p.url).Nodup := by
  induction q, v, pgs using crawlLoop.induct web with
  | case1 v pgs => rw [crawlLoop_nil]; exact hnd
  | case2 v pgs c rest h => rw [crawlLoop_cap web c rest v pgs h]; exact hnd
  | case3 v pgs c rest hcap hv ih =>
    rw [crawlLoop_skip web c rest v pgs hcap hv]
    exact ih hin hnd
  | case4 v pgs c rest hcap hv ih =>
    rw [crawlLoop_step web c rest v pgs hcap hv]
    refine ih ?_ ?_
    · intro p hp
      rcases List.mem_append.mp hp with h' | h'
      · exact List.mem_append_left _ (hin p h')
      · simp at h'
        subst h'
        simp [scrape_page_url]
    · rw [List.map_append]
      simp only [List.map_cons, List.map_nil, scrape_page_url]
      rw [List.nodup_append]
      refine ⟨hnd, List.nodup_singleton c, ?_⟩
      intro a ha hb
      simp at hb
      subst hb
      rcases List.mem_map.mp ha with ⟨p, hp, hup⟩
      exact hv (hup ▸ hin p hp)

/-- Every collected page url comes from the initial frontier or from the
link list of some fetched page. -/
theorem crawlLoop_urls_pred (web : String → FetchOutcome) (P : String → Prop)
    (hweb : ∀ u l, l ∈ linksOf (web u) → P l) (q v : List String)
    (pgs : List PageRecord) (hq : ∀ x ∈ q, P x) (hpg : ∀ p ∈ pgs, P p.url) :
    ∀ p ∈ crawlLoop web q v pgs, P p.url := by
  induction q, v, pgs using crawlLoop.induct web with
  | case1 v pgs => rw [crawlLoop_nil]; exact hpg
  | case2 v pgs c rest h => rw [crawlLoop_cap web c rest v pgs h]; exact hpg
  | case3 v pgs c rest hcap hv ih =>
    rw [crawlLoop_skip web c rest v pgs hcap hv]
    exact ih (fun x hx => hq x (List.mem_cons_of_mem c hx)) hpg
  | case4 v pgs c rest hcap hv ih =>
    rw [crawlLoop_step web c rest v pgs hcap hv]
    refine ih ?_ ?_
    · intro x hx
      rcases enqueue_subset _ _ _ _ hx with h' | h'
      · exact hq x (List.mem_cons_of_mem c h')
      · rw [scrape_page_snd] at h'
        exact hweb c x h'
    · intro p hp
      rcases List.mem_append.mp hp with h' | h'
      · exact hpg p h'
      · simp at h'
        subst h'
        rw [scrape_page_url]
        exact hq c (List.mem_cons_self c rest)

/-- Inversion of a completed `scrape_seo` run: the start URL normalized to
the result's `url` field, the robots check allowed it, the pages are the
crawl loop's output, and the mirror fields come from `pages[0]`. -/
theorem scrape_seo_completed_spec
    (robotsOracle : String → Option (String → String → Bool))
    (web : String → FetchOutcome) (url u : String) (rb : Bool)
    (ru : String) (pages : List PageRecord) (summ : Option Summary)
    (t m : Option String) (h1 h2 : List String) (wc : Nat) (mf : Bool)
    (hres : scrape_seo robotsOracle web url =
      some (.completed u rb ru pages summ t m h1 h2 wc mf)) :
    normalize_url (addScheme url) = some u ∧
    pages = crawlLoop web [u] [] [] ∧
    summ = build_summary (crawlLoop web [u] [] []) u ru ∧
    t = (match crawlLoop web [u] [] [] with | [] => none | p :: _ => p.title) ∧
    m = (match crawlLoop web [u] [] [] with
      | [] => none | p :: _ => p.meta_description) ∧
    h1 = (match crawlLoop web [u] [] [] with
      | [] => [] | p :: _ => p.h1_tags) ∧
    h2 = (match crawlLoop web [u] [] [] with
      | [] => [] | p :: _ => p.h2_tags) ∧
    wc = (match crawlLoop web [u] [] [] with
      | [] => 0 | p :: _ => p.word_count) ∧
    mf = (match crawlLoop web [u] [] [] with
      | [] => false | p :: _ => p.has_mobile_friendly) := by
  simp only [scrape_seo] at hres
  cases hn : normalize_url (addScheme url) with
  | none => rw [hn] at hres; simp at hres
  | some base =>
    rw [hn] at hres
    simp only [Option.some_bind] at hres
    cases hc : check_robots robotsOracle base with
    | none => rw [hc] at hres; simp at hres
    | some ar =>
      rw [hc] at hres
      simp only [Option.map_some'] at hres
      by_cases hal : ar.1 = false
      · rw [if_pos hal] at hres
        simp at hres
      · rw [if_neg hal] at hres
        rw [Option.some_inj] at hres
        simp only [CrawlResult.completed.injEq] at hres
        obtain ⟨hbu, _, hru, hpg, hsm, ht, hm, hh1, hh2, hwc, hmf⟩ := hres
        subst hbu
        subst hru
        exact ⟨rfl, hpg.symm, hsm.symm, ht.symm, hm.symm, hh1.symm,
          hh2.symm, hwc.symm, hmf.symm⟩

/-- Concrete evaluation: crawling a site of blank pages from
`https://a.com` with robots.txt unreachable yields the fixture result. -/
theorem scrape_seo_noLinks_eval :
    scrape_seo oracleDown webNoLinks "https://a.com" =
      some crawlResultFixture := by
  have hn : normalize_url (addScheme "https://a.com") = some "https://a.com/" := by
    decide
  have hc : check_robots oracleDown "https://a.com/" =
      some (true, "https://a.com/robots.txt") := by decide
  have hcl : crawlLoop webNoLinks ["https://a.com/"] [] [] =
      [blankPage "https://a.com/" 0] := by
    rw [crawlLoop_step webNoLinks "https://a.com/" [] [] []
      (by decide) (by simp)]
    simp [scrape_page, webNoLinks, emptyContent, enqueue, crawlLoop_nil,
      blankPage]
  simp only [scrape_seo]
  rw [hn]
  simp only [Option.some_bind]
  rw [hc]
  simp only [Option.map_some']
  rw [if_neg (by simp)]
  rw [hcl]
  rfl

/-! ## Claim theorems -/

/-- C1 (counterexample): on a single successful page with no title, no meta
description and two H1 tags, the issue list the code produces differs from
the one the claim describes: the code emits title (red), meta (red),
multiple H1 (orange) in that order, while the claim prescribes multiple H1
(orange), title (red), meta (orange). -/
theorem issue_order_counterexample :
    (build_summary [pageFixture] "b" "r").map (fun s => s.issues) =
      some [⟨"red", "1 sayfada başlık (title) eksik", ["u"]⟩,
            ⟨"red", "1 sayfada meta açıklama eksik", ["u"]⟩,
            ⟨"orange", "1 sayfada birden fazla H1 var (SEO hatası)", ["u"]⟩] ∧
    spec_claimed_issues (missing_title_of [pageFixture])
        (missing_meta_of [pageFixture]) (missing_h1_of [pageFixture])
        (multiple_h1_of [pageFixture]) (non_mobile_of [pageFixture])
        (total_images_no_alt_of [pageFixture])
        (avg_word_count_of [pageFixture]) =
      [⟨"orange", "1 sayfada birden fazla H1 var (SEO hatası)", ["u"]⟩,
       ⟨"red", "1 sayfada başlık (title) eksik", ["u"]⟩,
       ⟨"orange", "1 sayfada meta açıklama eksik", ["u"]⟩] ∧
    (build_summary [pageFixture] "b" "r").map (fun s => s.issues) ≠
      some (spec_claimed_issues (missing_title_of [pageFixture])
        (missing_meta_of [pageFixture]) (missing_h1_of [pageFixture])
        (multiple_h1_of [pageFixture]) (non_mobile_of [pageFixture])
        (total_images_no_alt_of [pageFixture])
        (avg_word_count_of [pageFixture])) := by
  refine ⟨by decide, by decide, by decide⟩

/-- C1 (amended): `summarize` builds the issue list by evaluating the rules
in the code's fixed order — missing title (red), missing meta description
(red), multiple H1 (orange), missing H1 (orange), not mobile-friendly
(red), images without alt (orange, empty page list), average word count
below 300 (orange, empty page list) — each emitted exactly when its
condition holds. -/
theorem issue_order_and_levels (pages : List PageRecord) (b r : String)
    (s : Summary) (h : build_summary pages b r = some s) :
    s.issues = emit_issues
      [(!(missing_title_of pages).isEmpty,
        ⟨"red", toString (missing_title_of pages).length ++
          " sayfada başlık (title) eksik", missing_title_of pages⟩),
       (!(missing_meta_of pages).isEmpty,
        ⟨"red", toString (missing_meta_of pages).length ++
          " sayfada meta açıklama eksik", missing_meta_of pages⟩),
       (!(multiple_h1_of pages).isEmpty,
        ⟨"orange", toString (multiple_h1_of pages).length ++
          " sayfada birden fazla H1 var (SEO hatası)", multiple_h1_of pages⟩),
       (!(missing_h1_of pages).isEmpty,
        ⟨"orange", toString (missing_h1_of pages).length ++
          " sayfada H1 etiketi yok", missing_h1_of pages⟩),
       (!(non_mobile_of pages).isEmpty,
        ⟨"red", toString (non_mobile_of pages).length ++
          " sayfa mobil uyumsuz", non_mobile_of pages⟩),
       (decide (total_images_no_alt_of pages > 0),
        ⟨"orange", "Toplam " ++ toString (total_images_no_alt_of pages) ++
          " görselde alt etiketi eksik", []⟩),
       (decide (avg_word_count_of pages < 300),
        ⟨"orange", "Ortalama sayfa içeriği çok az (" ++
          toString (avg_word_count_of pages) ++ " kelime)", []⟩)] := by
  rw [build_summary_eq pages b r s h]
  exact build_issues_emit _ _ _ _ _ _ _

/-- C1 (witness): the amended order theorem applied to one concrete page. -/
theorem issue_order_and_levels_witness :
    build_summary [pageFixture] "b" "r" = some issueSummaryFixture ∧
    issueSummaryFixture.issues = emit_issues
      [(!(missing_title_of [pageFixture]).isEmpty,
        ⟨"red", toString (missing_title_of [pageFixture]).length ++
          " sayfada başlık (title) eksik", missing_title_of [pageFixture]⟩),
       (!(missing_meta_of [pageFixture]).isEmpty,
        ⟨"red", toString (missing_meta_of [pageFixture]).length ++
          " sayfada meta açıklama eksik", missing_meta_of [pageFixture]⟩),
       (!(multiple_h1_of [pageFixture]).isEmpty,
        ⟨"orange", toString (multiple_h1_of [pageFixture]).length ++
          " sayfada birden fazla H1 var (SEO hatası)",
          multiple_h1_of [pageFixture]⟩),
       (!(missing_h1_of [pageFixture]).isEmpty,
        ⟨"orange", toString (missing_h1_of [pageFixture]).length ++
          " sayfada H1 etiketi yok", missing_h1_of [pageFixture]⟩),
       (!(non_mobile_of [pageFixture]).isEmpty,
        ⟨"red", toString (non_mobile_of [pageFixture]).length ++
          " sayfa mobil uyumsuz", non_mobile_of [pageFixture]⟩),
       (decide (total_images_no_alt_of [pageFixture] > 0),
        ⟨"orange", "Toplam " ++ toString (total_images_no_alt_of [pageFixture]) ++
          " görselde alt etiketi eksik", []⟩),
       (decide (avg_word_count_of [pageFixture] < 300),
        ⟨"orange", "Ortalama sayfa içeriği çok az (" ++
          toString (avg_word_count_of [pageFixture]) ++ " kelime)", []⟩)] := by
  have hdec : build_summary [pageFixture] "b" "r" = some issueSummaryFixture := by
    decide
  exact ⟨hdec, issue_order_and_levels [pageFixture] "b" "r" issueSummaryFixture hdec⟩

/-- C2 (counterexample): a successfully completed crawl's top-level dict
has keys url, robots_checked, robots_url, pages, summary, title,
meta_description, h1_tags, h2_tags, word_count, has_mobile_friendly — it
lacks the claimed og_title (likewise canonical, h3_tags,
images_without_alt and error), and carries robots_checked, which the claim
does not list. -/
theorem crawl_result_fields_counterexample :
    (scrape_seo oracleDown webNoLinks "https://a.com").map CrawlResult.keys =
      some ["url", "robots_checked", "robots_url", "pages", "summary",
        "title", "meta_description", "h1_tags", "h2_tags", "word_count",
        "has_mobile_friendly"] ∧
    "og_title" ∈ spec_claimed_fields ∧
    "og_title" ∉ ["url", "robots_checked", "robots_url", "pages", "summary",
      "title", "meta_description", "h1_tags", "h2_tags", "word_count",
      "has_mobile_friendly"] ∧
    "robots_checked" ∉ spec_claimed_fields := by
  refine ⟨?_, by decide, by decide, by decide⟩
  rw [scrape_seo_noLinks_eval]
  rfl

/-- C2 (amended): every `CrawlResult` returned by `scrape_seo` has exactly
the top-level keys url, robots_checked, robots_url, pages, summary, title,
meta_description, h1_tags, h2_tags, word_count, has_mobile_friendly (for a
completed crawl) or url, robots_checked, robots_url, error, pages, summary
(for a robots-blocked crawl); an `error` key exists only in the blocked
shape, and og_title, canonical, h3_tags and images_without_alt appear in
neither. -/
theorem crawl_result_field_set
    (robotsOracle : String → Option (String → String → Bool))
    (web : String → FetchOutcome) (url : String) (res : CrawlResult)
    (hres : scrape_seo robotsOracle web url = some res) :
    res.keys = ["url", "robots_checked", "robots_url", "pages", "summary",
      "title", "meta_description", "h1_tags", "h2_tags", "word_count",
      "has_mobile_friendly"] ∨
    res.keys = ["url", "robots_checked", "robots_url", "error", "pages",
      "summary"] := by
  cases res
  · exact Or.inr rfl
  · exact Or.inl rfl

/-- C2 (witness): the field-set theorem applied to a concrete crawl. -/
theorem crawl_result_field_set_witness :
    scrape_seo oracleDown webNoLinks "https://a.com" =
      some crawlResultFixture ∧
    (crawlResultFixture.keys = ["url", "robots_checked", "robots_url",
      "pages", "summary", "title", "meta_description", "h1_tags", "h2_tags",
      "word_count", "has_mobile_friendly"] ∨
    crawlResultFixture.keys = ["url", "robots_checked", "robots_url",
      "error", "pages", "summary"]) :=
  ⟨scrape_seo_noLinks_eval, crawl_result_field_set oracleDown webNoLinks
    "https://a.com" crawlResultFixture scrape_seo_noLinks_eval⟩

/-- C4: when a crawl whose result is a completed `CrawlResult` has at least
one successfully visited page, the top-level convenience fields equal the
corresponding fields of the first page record without an error (that record
is necessarily `pages[0]`: a failed first fetch contributes no links, so
the crawl would have stopped with that single failed page). -/
theorem mirror_fields_first_ok
    (robotsOracle : String → Option (String → String → Bool))
    (web : String → FetchOutcome) (url u : String) (rb : Bool) (ru : String)
    (pages : List PageRecord) (summ : Option Summary) (t m : Option String)
    (h1 h2 : List String) (wc : Nat) (mf : Bool) (p₀ : PageRecord)
    (hres : scrape_seo robotsOracle web url =
      some (.completed u rb ru pages summ t m h1 h2 wc mf))
    (hfind : pages.find? (fun p => p.error.isNone) = some p₀) :
    t = p₀.title ∧ m = p₀.meta_description ∧ h1 = p₀.h1_tags ∧
    h2 = p₀.h2_tags ∧ wc = p₀.word_count ∧ mf = p₀.has_mobile_friendly := by
  obtain ⟨hn, hpg, hsm, ht, hm, hh1, hh2, hwc, hmf⟩ :=
    scrape_seo_completed_spec robotsOracle web url u rb ru pages summ
      t m h1 h2 wc mf hres
  have step : crawlLoop web [u] [] [] =
      crawlLoop web (enqueue [u] [] (scrape_page web u).2) [u]
        [(scrape_page web u).1] :=
    crawlLoop_step web u [] [] [] (by decide) (by simp)
  cases hw : web u with
  | failure msg =>
    have hlnk : (scrape_page web u).2 = [] := by
      rw [scrape_page_snd, hw]
      rfl
    have hcl : crawlLoop web [u] [] [] = [(scrape_page web u).1] := by
      rw [step, hlnk]
      exact crawlLoop_nil web [u] [(scrape_page web u).1]
    have herr : (scrape_page web u).1.error = some msg := by
      simp [scrape_page, hw]
    rw [hpg, hcl] at hfind
    simp [List.find?, herr] at hfind
  | success cont =>
    have hok : (scrape_page web u).1.error = none := by
      simp [scrape_page, hw]
    obtain ⟨tl, htl⟩ := crawlLoop_append web
      (enqueue [u] [] (scrape_page web u).2) [u] [(scrape_page web u).1]
    have hcl : crawlLoop web [u] [] [] = (scrape_page web u).1 :: tl := by
      rw [step, htl]
      rfl
    rw [hpg, hcl] at hfind
    rw [List.find?_cons_of_pos _ (by simp [hok])] at hfind
    have hp₀ : p₀ = (scrape_page web u).1 := (Option.some.inj hfind).symm
    rw [hcl] at ht hm hh1 hh2 hwc hmf
    subst hp₀
    exact ⟨ht, hm, hh1, hh2, hwc, hmf⟩

/-- C4 (witness): the mirror theorem applied to a concrete one-page crawl
whose only page succeeds. -/
theorem mirror_fields_first_ok_witness :
    [blankPage "https://a.com/" 0].find? (fun p => p.error.isNone) =
      some (blankPage "https://a.com/" 0) ∧
    (none = (blankPage "https://a.com/" 0).title ∧
     none = (blankPage "https://a.com/" 0).meta_description ∧
     [] = (blankPage "https://a.com/" 0).h1_tags ∧
     [] = (blankPage "https://a.com/" 0).h2_tags ∧
     0 = (blankPage "https://a.com/" 0).word_count ∧
     false = (blankPage "https://a.com/" 0).has_mobile_friendly) :=
  ⟨by decide, mirror_fields_first_ok oracleDown webNoLinks "https://a.com"
    "https://a.com/" true "https://a.com/robots.txt"
    [blankPage "https://a.com/" 0]
    (build_summary [blankPage "https://a.com/" 0] "https://a.com/"
      "https://a.com/robots.txt")
    none none [] [] 0 false (blankPage "https://a.com/" 0)
    scrape_seo_noLinks_eval (by decide)⟩

/-- C5: in a crawl where the start page `s` links to `b` then `c`, `b`
links to `d`, and `c`, `d` link nowhere (all distinct, within the page
cap), the visit order is `s`, `b`, `c`, `d`: the scheduler pops the
earliest-enqueued frontier URL and appends fresh links in discovery
order. -/
theorem crawl_bfs_order (web : String → FetchOutcome) (s b c d : String)
    (cs cb : PageContent) (hs : web s = .success cs)
    (hlinks : cs.internal_links = [b, c]) (hb : web b = .success cb)
    (hblinks : cb.internal_links = [d]) (hc : linksOf (web c) = [])
    (hd : linksOf (web d) = []) (hbs : b ≠ s) (hcs : c ≠ s) (hcb : c ≠ b)
    (hds : d ≠ s) (hdb : d ≠ b) (hdc : d ≠ c) :
    (crawlLoop web [s] [] []).map (fun p => p.url) = [s, b, c, d] := by
  have hs2 : (scrape_page web s).2 = [b, c] := by
    rw [scrape_page_snd, hs]
    simp [linksOf, hlinks]
  have hb2 : (scrape_page web b).2 = [d] := by
    rw [scrape_page_snd, hb]
    simp [linksOf, hblinks]
  have hc2 : (scrape_page web c).2 = [] := by rw [scrape_page_snd, hc]
  have hd2 : (scrape_page web d).2 = [] := by rw [scrape_page_snd, hd]
  have e1 : enqueue [s] [] [b, c] = [b, c] := by
    simp [enqueue, hbs, hcs, hcb]
  have e2 : enqueue [s, b] [c] [d] = [c, d] := by
    simp [enqueue, hds, hdb, hdc]
  rw [crawlLoop_step web s [] [] [] (by decide) (by simp)]
  simp only [List.nil_append, hs2, e1]
  rw [crawlLoop_step web b [c] [s] [(scrape_page web s).1]
    (by simp [MAX_PAGES]) (by simp [hbs])]
  simp only [List.cons_append, List.nil_append, hb2, e2]
  rw [crawlLoop_step web c [d] [s, b]
    [(scrape_page web s).1, (scrape_page web b).1]
    (by simp [MAX_PAGES]) (by simp [hcs, hcb])]
  simp only [List.cons_append, List.nil_append, hc2]
  rw [show enqueue [s, b, c] [d] [] = [d] from rfl]
  rw [crawlLoop_step web d [] [s, b, c]
    [(scrape_page web s).1, (scrape_page web b).1, (scrape_page web c).1]
    (by simp [MAX_PAGES]) (by simp [hds, hdb, hdc])]
  simp only [List.cons_append, List.nil_append, hd2]
  rw [show enqueue [s, b, c, d] [] [] = [] from rfl]
  rw [crawlLoop_nil]
  simp [scrape_page_url]

/-- C5 (witness): the BFS-order theorem on a concrete four-page site. -/
theorem crawl_bfs_order_witness :
    (crawlLoop webBFS ["s"] [] []).map (fun p => p.url) =
      ["s", "b", "cc", "d"] :=
  crawl_bfs_order webBFS "s" "b" "cc" "d"
    { emptyContent with internal_links := ["b", "cc"] }
    { emptyContent with internal_links := ["d"] }
    (by decide) rfl (by decide) rfl (by decide) (by decide)
    (by decide) (by decide) (by decide) (by decide) (by decide) (by decide)

/-- C6 (counterexample): the canonicalized URLs of a crawl's page entries
are not always pairwise distinct, and two discovered hrefs differing only
by a trailing slash can both be fetched. The hrefs `http://a.com/x/;p/`
and `http://a.com/x/;p` differ only by a trailing slash, yet
`get_internal_links` canonicalizes them to the distinct frontier keys
`http://a.com/x/;p` and `http://a.com/x;p` (`normalize_url` is not
idempotent on semicolon paths), so the crawl fetches both — and those two
fetched entries share the single canonical form `http://a.com/x;p`. -/
theorem crawl_pages_unique_counterexample :
    scrape_seo oracleDown webTrailingSlash "http://a.com" =
      some (.completed "http://a.com/" true "http://a.com/robots.txt"
        trailingSlashPages
        (build_summary trailingSlashPages "http://a.com/"
          "http://a.com/robots.txt")
        none none [] [] 0 false) ∧
    "http://a.com/x/;p/".data = "http://a.com/x/;p".data ++ ['/'] ∧
    normalize_url "http://a.com/x/;p/" = some "http://a.com/x/;p" ∧
    normalize_url "http://a.com/x/;p" = some "http://a.com/x;p" ∧
    normalize_url "http://a.com/x;p" = some "http://a.com/x;p" ∧
    (trailingSlashPages.map fun p => p.url) =
      ["http://a.com/", "http://a.com/x/;p", "http://a.com/x;p"] ∧
    normalize_url "http://a.com/x/;p" = normalize_url "http://a.com/x;p" ∧
    "http://a.com/x/;p" ≠ "http://a.com/x;p" := by
  refine ⟨?_, by decide, by decide, by decide, by decide, by decide,
    by decide, by decide⟩
  have hn : normalize_url (addScheme "http://a.com") = some "http://a.com/" := by
    decide
  have hc : check_robots oracleDown "http://a.com/" =
      some (true, "http://a.com/robots.txt") := by decide
  have hcl : crawlLoop webTrailingSlash ["http://a.com/"] [] [] =
      trailingSlashPages := by
    simp [crawlLoop, enqueue, scrape_page, webTrailingSlash, emptyContent,
      MAX_PAGES, trailingSlashPages, blankPage]
  simp only [scrape_seo]
  rw [hn]
  simp only [Option.some_bind]
  rw [hc]
  simp only [Option.map_some']
  rw [if_neg (by simp)]
  rw [hcl]
  rfl

/-- C6 (amended): the url fields of the collected page records — the keys
under which the scheduler fetched them — are pairwise distinct for every
crawl (no URL string is fetched twice); when additionally the start URL
and every discovered link are `normalize_url` fixed points, even the
canonicalized urls are pairwise distinct, and a trailing-slash or fragment
variant of a semicolon-free URL shares its canonical form, so such
variants are never both fetched. -/
theorem crawl_pages_unique
    (robotsOracle : String → Option (String → String → Bool))
    (web : String → FetchOutcome) (url u : String) (rb : Bool) (ru : String)
    (pages : List PageRecord) (summ : Option Summary) (t m : Option String)
    (h1 h2 : List String) (wc : Nat) (mf : Bool)
    (hres : scrape_seo robotsOracle web url =
      some (.completed u rb ru pages summ t m h1 h2 wc mf)) :
    (pages.map fun p => p.url).Nodup ∧
    ((∀ v l, l ∈ linksOf (web v) → normalize_url l = some l) →
      normalize_url u = some u →
      ∀ p₁ ∈ pages, ∀ p₂ ∈ pages,
        normalize_url p₁.url = normalize_url p₂.url → p₁.url = p₂.url) ∧
    normalize_url "https://a.com/x/" = normalize_url "https://a.com/x" ∧
    normalize_url "https://a.com/x#frag" = normalize_url "https://a.com/x" := by
  obtain ⟨hn, hpg, _⟩ :=
    scrape_seo_completed_spec robotsOracle web url u rb ru pages summ
      t m h1 h2 wc mf hres
  refine ⟨?_, ?_, by decide, by decide⟩
  · rw [hpg]
    exact crawlLoop_nodup web [u] [] [] (by simp) (by simp)
  · intro hweb hbase p₁ hp₁ p₂ hp₂ heq
    have hP := crawlLoop_urls_pred web (fun x => normalize_url x = some x)
      hweb [u] [] []
      (by
        intro x hx
        simp at hx
        subst hx
        exact hbase)
      (by simp)
    rw [hpg] at hp₁ hp₂
    have h₁ := hP p₁ hp₁
    have h₂ := hP p₂ hp₂
    rw [h₁, h₂] at heq
    exact Option.some.inj heq

/-- C6 (witness): the uniqueness theorem applied to a concrete one-page
crawl. -/
theorem crawl_pages_unique_witness :
    ([blankPage "https://a.com/" 0].map fun p => p.url).Nodup ∧
    ((∀ v l, l ∈ linksOf (webNoLinks v) → normalize_url l = some l) →
      normalize_url "https://a.com/" = some "https://a.com/" →
      ∀ p₁ ∈ [blankPage "https://a.com/" 0],
        ∀ p₂ ∈ [blankPage "https://a.com/" 0],
          normalize_url p₁.url = normalize_url p₂.url → p₁.url = p₂.url) ∧
    normalize_url "https://a.com/x/" = normalize_url "https://a.com/x" ∧
    normalize_url "https://a.com/x#frag" = normalize_url "https://a.com/x" :=
  crawl_pages_unique oracleDown webNoLinks "https://a.com" "https://a.com/"
    true "https://a.com/robots.txt" [blankPage "https://a.com/" 0]
    (build_summary [blankPage "https://a.com/" 0] "https://a.com/"
      "https://a.com/robots.txt")
    none none [] [] 0 false scrape_seo_noLinks_eval

/-- C3 (counterexample): for three successful pages with word counts 0, 0
and 2, the code's average is `int(2/3) = 0`, which is not the
nearest-integer rounding of 2/3 (that is 1). -/
theorem avg_word_count_counterexample :
    (build_summary [blankPage "u1" 0, blankPage "u2" 0, blankPage "u3" 2]
        "b" "r").map (fun s => s.avg_word_count) = some 0 ∧
    ¬ is_nearest_int 2 3 0 := by
  refine ⟨by decide, fun h => ?_⟩
  have h1 := h 1
  revert h1
  decide

/-- C3 (amended): for every page-record sequence that yields a summary,
`avg_word_count` is the floor (truncating division) of the sum of word
counts over successful pages divided by the number of successful pages,
and 0 when there is no successful page. -/
theorem avg_word_count_floor (pages : List PageRecord) (b r : String)
    (s : Summary) (h : build_summary pages b r = some s) :
    (ok_pages_of pages ≠ [] →
      s.avg_word_count =
        ((ok_pages_of pages).map fun p => p.word_count).sum /
          (ok_pages_of pages).length) ∧
    (ok_pages_of pages = [] → s.avg_word_count = 0) := by
  rw [build_summary_eq pages b r s h]
  constructor
  · intro hok
    simp [avg_word_count_of, hok]
  · intro hok
    simp [avg_word_count_of, hok]

/-- C3 (witness): the floor-average theorem applied to one concrete page
list with word count 7. -/
theorem avg_word_count_floor_witness :
    build_summary [blankPage "u" 7] "b" "r" = some wordCountSummaryFixture ∧
    ((ok_pages_of [blankPage "u" 7] ≠ [] →
      wordCountSummaryFixture.avg_word_count =
        ((ok_pages_of [blankPage "u" 7]).map fun p => p.word_count).sum /
          (ok_pages_of [blankPage "u" 7]).length) ∧
    (ok_pages_of [blankPage "u" 7] = [] →
      wordCountSummaryFixture.avg_word_count = 0)) := by
  have hdec : build_summary [blankPage "u" 7] "b" "r" =
      some wordCountSummaryFixture := by decide
  exact ⟨hdec, avg_word_count_floor [blankPage "u" 7] "b" "r"
    wordCountSummaryFixture hdec⟩

/-- C9: if fetching or parsing robots.txt fails, `check_robots` fails open:
it returns `allowed = true` together with the robots URL derived as
`{scheme}://{host}/robots.txt`, so the crawl proceeds. -/
theorem check_robots_fails_open
    (robotsOracle : String → Option (String → String → Bool)) (url : String)
    (p : URLParts) (hp : urlparseL url.data = some p)
    (hfail : robotsOracle (robotsUrlOf p) = none) :
    check_robots robotsOracle url = some (true, robotsUrlOf p) ∧
    robotsUrlOf p =
      String.mk (p.scheme ++ ':' :: '/' :: '/' ::
        (p.netloc ++ "/robots.txt".data)) := by
  refine ⟨?_, rfl⟩
  simp [check_robots, hp, hfail]

/-- C9 (witness): fail-open at a concrete URL with the network down. -/
theorem check_robots_fails_open_witness :
    check_robots oracleDown "https://a.com/x" =
      some (true, robotsUrlOf ⟨"https".data, "a.com".data, "/x".data,
        [], [], []⟩) :=
  (check_robots_fails_open oracleDown "https://a.com/x"
    ⟨"https".data, "a.com".data, "/x".data, [], [], []⟩ (by decide) rfl).1

/-- C8: when the robots check disallows the start URL, `scrape_seo` returns
the blocked literal: empty pages, empty summary, and an error naming the
robots URL; the result does not depend on the web oracle at all (no page
fetch can influence it). -/
theorem scrape_seo_robots_blocked
    (robotsOracle : String → Option (String → String → Bool))
    (web : String → FetchOutcome) (url base robots_url : String)
    (hn : normalize_url (addScheme url) = some base)
    (hr : check_robots robotsOracle base = some (false, robots_url)) :
    scrape_seo robotsOracle web url =
      some (.blocked base true robots_url
        ("robots.txt tarafından engellendi: " ++ robots_url) [] none) ∧
    (∀ web₂ : String → FetchOutcome,
      scrape_seo robotsOracle web₂ url = scrape_seo robotsOracle web url) ∧
    (∃ pre post, "robots.txt tarafından engellendi: " ++ robots_url =
      pre ++ robots_url ++ post) := by
  have hall : ∀ w : String → FetchOutcome, scrape_seo robotsOracle w url =
      some (.blocked base true robots_url
        ("robots.txt tarafından engellendi: " ++ robots_url) [] none) := by
    intro w
    simp [scrape_seo, hn, hr]
  exact ⟨hall web, fun w₂ => (hall w₂).trans (hall web).symm,
    "robots.txt tarafından engellendi: ", "", by simp⟩

/-- C8 (witness): a concrete crawl against a robots file that disallows
everything. -/
theorem scrape_seo_robots_blocked_witness :
    scrape_seo oracleDeny webNoLinks "https://a.com" =
      some (.blocked "https://a.com/" true "https://a.com/robots.txt"
        ("robots.txt tarafından engellendi: " ++ "https://a.com/robots.txt")
        [] none) :=
  (scrape_seo_robots_blocked oracleDeny webNoLinks "https://a.com"
    "https://a.com/" "https://a.com/robots.txt" (by decide) (by decide)).1

/-- C10: a non-empty page list in which every record carries an error still
yields a full summary: 0 successful pages, average 0, all five URL lists
empty, and the issue list consisting of exactly the low-content issue
(orange, empty page list), since 0 < 300. -/
theorem build_summary_all_error_pages (pages : List PageRecord) (b r : String)
    (hne : pages ≠ []) (herr : ∀ p ∈ pages, p.error ≠ none) :
    ∃ s, build_summary pages b r = some s ∧ s.successful_pages = 0 ∧
      s.avg_word_count = 0 ∧ s.pages_missing_title = [] ∧
      s.pages_missing_meta = [] ∧ s.pages_missing_h1 = [] ∧
      s.pages_with_multiple_h1 = [] ∧ s.pages_not_mobile_friendly = [] ∧
      ⟨"orange", "Ortalama sayfa içeriği çok az (0 kelime)", []⟩ ∈ s.issues := by
  have hok : ok_pages_of pages = [] := by
    rw [ok_pages_of, List.filter_eq_nil_iff]
    intro p hp
    simpa using herr p hp
  refine ⟨⟨pages.length, (ok_pages_of pages).length,
    pages.length - (ok_pages_of pages).length, avg_word_count_of pages,
    total_images_no_alt_of pages, missing_title_of pages,
    missing_meta_of pages, missing_h1_of pages, multiple_h1_of pages,
    non_mobile_of pages,
    build_issues (missing_title_of pages) (missing_meta_of pages)
      (missing_h1_of pages) (multiple_h1_of pages) (non_mobile_of pages)
      (total_images_no_alt_of pages) (avg_word_count_of pages)⟩,
    by simp only [build_summary, if_neg hne], ?_, ?_, ?_, ?_, ?_, ?_, ?_, ?_⟩
  · simp [hok]
  · simp [avg_word_count_of, hok]
  · simp [missing_title_of, hok]
  · simp [missing_meta_of, hok]
  · simp [missing_h1_of, hok]
  · simp [multiple_h1_of, hok]
  · simp [non_mobile_of, hok]
  · simp only [missing_title_of, missing_meta_of, missing_h1_of,
      multiple_h1_of, non_mobile_of, total_images_no_alt_of,
      avg_word_count_of, hok]
    decide

/-- C10 (witness): the all-errors summary theorem applied to two concrete
timed-out pages. -/
theorem build_summary_all_error_pages_witness :
    (∀ p ∈ [errorPage "u1", errorPage "u2"], p.error ≠ none) ∧
    (∃ s, build_summary [errorPage "u1", errorPage "u2"] "b" "r" = some s ∧
      s.successful_pages = 0 ∧ s.avg_word_count = 0 ∧
      s.pages_missing_title = [] ∧ s.pages_missing_meta = [] ∧
      s.pages_missing_h1 = [] ∧ s.pages_with_multiple_h1 = [] ∧
      s.pages_not_mobile_friendly = [] ∧
      ⟨"orange", "Ortalama sayfa içeriği çok az (0 kelime)", []⟩ ∈ s.issues) :=
  ⟨by decide, build_summary_all_error_pages [errorPage "u1", errorPage "u2"]
    "b" "r" (by decide) (by decide)⟩

/-- C7 (amended): for every absolute URL (non-empty scheme and netloc)
whose parsed path contains no semicolon, `normalize_url` is idempotent;
and it is insensitive to a trailing slash and to a fragment:
`normalize_url` maps `https://a.com/x/`, `https://a.com/x` and
`https://a.com/x#frag` to the same canonical URL. -/
theorem normalize_url_idempotent (url : String) (ps : URLParts)
    (hps : urlsplitL url.data = some ps) (hscheme : ps.scheme ≠ [])
    (hnetloc : ps.netloc ≠ []) (hsemi : ';' ∉ ps.path) :
    (normalize_url url).bind normalize_url = normalize_url url ∧
    normalize_url "https://a.com/x/" = normalize_url "https://a.com/x" ∧
    normalize_url "https://a.com/x#frag" = normalize_url "https://a.com/x" ∧
    normalize_url "https://a.com/x" = some "https://a.com/x" := by
  refine ⟨?_, by decide, by decide, by decide⟩
  obtain ⟨hsch, hnall, hbr1, hbr2, hascii, hnclean, hpathshape, hphash, hpq,
    hpclean, hqhash, hqclean, hparams⟩ := urlsplit_facts hps
  rcases hsch with hsch | ⟨hsne, hsalpha, hsall, hslow⟩
  · exact absurd hsch hscheme
  have hp : urlparseL url.data = some ps := urlparse_of_urlsplit hps hsemi
  have h1 := normalizeL_eq hp hparams hscheme hnetloc (hpathshape hnetloc)
  have hnp_ne : normPath ps.path ≠ [] := normPath_ne_nil _
  have hnp_head : (normPath ps.path).headD ' ' = '/' :=
    normPath_headD (hpathshape hnetloc)
  have hnp_hash : '#' ∉ normPath ps.path := normPath_not_mem (by decide) hphash
  have hnp_q : '?' ∉ normPath ps.path := normPath_not_mem (by decide) hpq
  have hnp_semi : ';' ∉ normPath ps.path := normPath_not_mem (by decide) hsemi
  have hnp_clean : ∀ c ∈ normPath ps.path, unsafeByte c = false := by
    intro c hc
    rcases normPath_mem hc with hc | hc
    · exact hpclean c hc
    · exact hc ▸ unsafe_slash
  have h2 : urlsplitL (ps.scheme ++ ':' :: '/' :: '/' ::
      (ps.netloc ++ (normPath ps.path ++
        if ps.query ≠ [] then '?' :: ps.query else []))) =
      some ⟨ps.scheme, ps.netloc, normPath ps.path, [], ps.query, []⟩ :=
    urlsplitL_build hsne hsalpha hsall hslow hnall hbr1 hbr2 hascii hnclean
      hnp_ne hnp_head hnp_hash hnp_q hnp_clean hqhash hqclean
  have hp2 := urlparse_of_urlsplit h2 hnp_semi
  have h3 := normalizeL_eq hp2 rfl hscheme hnetloc (Or.inr hnp_head)
  rw [normPath_idem] at h3
  unfold normalize_url
  rw [h1]
  simp only [Option.map_some', Option.some_bind]
  rw [h3]
  rfl

/-- C7 (counterexample): `normalize_url` is not idempotent on every
absolute URL: stripping the trailing slash of `http://a.com/x/;p/` exposes
a `;` in the last path segment, so the second normalization splits
parameters and produces a different string. -/
theorem normalize_url_not_idempotent :
    normalize_url "http://a.com/x/;p/" = some "http://a.com/x/;p" ∧
    (normalize_url "http://a.com/x/;p/").bind normalize_url =
      some "http://a.com/x;p" ∧
    (normalize_url "http://a.com/x/;p/").bind normalize_url ≠
      normalize_url "http://a.com/x/;p/" := by
  refine ⟨by decide, by decide, by decide⟩

/-- C7 (witness): idempotence applied at a concrete semicolon-free URL. -/
theorem normalize_url_idempotent_witness :
    (normalize_url "https://a.com/x").bind normalize_url =
      normalize_url "https://a.com/x" ∧
    normalize_url "https://a.com/x/" = normalize_url "https://a.com/x" ∧
    normalize_url "https://a.com/x#frag" = normalize_url "https://a.com/x" ∧
    normalize_url "https://a.com/x" = some "https://a.com/x" :=
  normalize_url_idempotent "https://a.com/x"
    ⟨"https".data, "a.com".data, "/x".data, [], [], []⟩
    (by decide) (by decide) (by decide) (by decide)

end Crawler
